import Mathlib

/-!
# Verification of the werewolf game core

Shallow embedding of the authoritative engine (`src/werewolf/engine.py`),
the game-loop vote resolution (`src/werewolf/simulator.py` and
`src/games/werewolf_simulator/werewolf/simulator.py`), and the rollout /
win-rate estimation machinery
(`src/games/werewolf_simulator/werewolf/estimation.py`).

Conventions of the embedding:
* Python `dict`s are modelled as association lists that preserve insertion
  order: updating an existing key keeps its position, a new key is appended.
* Python `random.Random` draws are modelled by a stream of natural numbers
  (`Rng`): each primitive draw consumes one stream element.  `random.choice`
  picks index `v % len`, `random.shuffle` is Fisher-Yates with
  `j = v % (i+1)`, and a comparison `random.random() < p` (for a threshold
  of `p` percent) is modelled as `v % 100 < p`.  Theorems quantify over the
  stream, so every outcome the source can produce is covered.
* Functions whose Python counterpart can raise (missing dictionary key,
  `next` on an empty iterator) return `Option`; `none` models the exception.
-/

namespace Werewolf

/-- Roles, from `models.py` (`class Role`). -/
inductive Role where
  | WOLF
  | SEER
  | WITCH
  | HUNTER
  | VILLAGER
deriving DecidableEq, Repr

/-- Factions, from `models.py` (`class Faction`). -/
inductive Faction where
  | WOLF
  | VILLAGE
deriving DecidableEq, Repr

/-- Phases, from `models.py` (`class Phase`). -/
inductive Phase where
  | NIGHT_WOLF
  | NIGHT_SEER
  | NIGHT_WITCH
  | DAY_DISCUSS
  | DAY_VOTE
  | GAME_OVER
deriving DecidableEq, Repr

/-- Action types, from `models.py` (`class ActionType`). -/
inductive ActionType where
  | KILL
  | CHECK
  | SAVE
  | POISON
  | VOTE
  | SHOOT
  | PASS
  | SPEAK
deriving DecidableEq, Repr

/-- Association list with Python-dict semantics (insertion order kept). -/
def alookup {α : Type} : List (Nat × α) → Nat → Option α
  | [], _ => none
  | (k, v) :: rest, key => if k = key then some v else alookup rest key

/-- `d[key] = value` on a Python dict: update in place, else append. -/
def aset {α : Type} : List (Nat × α) → Nat → α → List (Nat × α)
  | [], key, value => [(key, value)]
  | (k, v) :: rest, key, value =>
      if k = key then (k, value) :: rest else (k, v) :: aset rest key value

/-- `key in d` on a Python dict. -/
def amem {α : Type} (d : List (Nat × α)) (key : Nat) : Bool :=
  (alookup d key).isSome

/-- Player record, from `models.py` (`class Player`). -/
structure Player where
  player_id : Nat
  role : Role
  alive : Bool := true
  death_reason : Option String := none
deriving DecidableEq, Repr

/-- Witch ability-usage flags, from `models.py` (`class WitchState`). -/
structure WitchState where
  save_used : Bool := false
  poison_used : Bool := false
  saved_player_id : Option Nat := none
deriving DecidableEq, Repr

/-- Per-agent hidden knowledge, from `models.py` (`class PlayerPrivate`).
Trust scores are Python floats holding only copied constants in the engine
code under verification; they are modelled as rationals. -/
structure PlayerPrivate where
  seer_results : List (Nat × Bool) := []
  witch_state : WitchState := {}
  trust_scores : List (Nat × ℚ) := []
  known_seers : List Nat := []
  known_witches : List Nat := []
  believed_silver_water : Option Nat := none
deriving DecidableEq, Repr

/-- Public claim, from `models.py` (`class Statement`). -/
structure Statement where
  actor_id : Nat
  content : String
  claimed_role : Option Role := none
  claimed_checks : List (Nat × Bool) := []
deriving DecidableEq, Repr

/-- An action, from `models.py` (`class Action`). -/
structure Action where
  action_type : ActionType
  actor_id : Nat
  target_id : Option Nat := none
  statement : Option Statement := none
deriving DecidableEq, Repr

/-- Advisor recommendation, from `models.py` (`class Recommendation`).
The win-rate estimate (a Python float) is modelled as a rational. -/
structure Recommendation where
  action : Action
  reason : String
  win_rate_estimate : Option ℚ := none
deriving DecidableEq, Repr

/-- Public event log record, from `models.py` (`class Event`). -/
structure Event where
  day : Nat
  phase : Phase
  description : String
  actor_id : Option Nat := none
  target_id : Option Nat := none
  recommendation : Option Recommendation := none
  statement : Option Statement := none
  votes : Option (List (Nat × Nat)) := none
  vote_reasons : Option (List (Nat × String)) := none
  trust_scores : Option (List (Nat × List (Nat × ℚ))) := none
deriving DecidableEq, Repr

/-- Game configuration, from `models.py` (`class GameConfig`).
`roles` maps each role to its configured count. -/
structure GameConfig where
  player_count : Nat
  roles : List (Role × Nat)
  victory_condition : String := "side_slaughter"
deriving DecidableEq, Repr

/-- The mutable game-state root, from `models.py` (`class GameState`). -/
structure GameState where
  players : List Player
  day : Nat
  phase : Phase
  config : GameConfig
  pending_kill : Option Nat := none
  public_events : List Event := []
  private_info : List (Nat × PlayerPrivate) := []
  winner : Option Faction := none
deriving DecidableEq, Repr

/-! ## Engine helpers (`src/werewolf/engine.py`) -/

/-- `alive_players` (engine.py line 113). -/
def alive_players (state : GameState) : List Player :=
  state.players.filter (fun p => p.alive)

/-- `get_player` (engine.py line 117); `none` models the `StopIteration`
raised by `next` when the id does not occur. -/
def get_player (state : GameState) (player_id : Nat) : Option Player :=
  state.players.find? (fun p => p.player_id = player_id)

/-- `role_of` (engine.py line 121). -/
def role_of (state : GameState) (player_id : Nat) : Option Role :=
  (get_player state player_id).map Player.role

/-- `faction_of` (engine.py line 125). -/
def faction_of (role : Role) : Faction :=
  if role = Role.WOLF then Faction.WOLF else Faction.VILLAGE

/-- `check_winner` (engine.py lines 129-137): among living players, no
wolves means a Village win; wolves at least as numerous as non-wolves means
a Wolf win; otherwise no winner. -/
def check_winner (state : GameState) : Option Faction :=
  let alive := alive_players state
  let wolves := alive.filter (fun p => p.role = Role.WOLF)
  let villagers := alive.filter (fun p => p.role ≠ Role.WOLF)
  if wolves.isEmpty then some Faction.VILLAGE
  else if villagers.length ≤ wolves.length then some Faction.WOLF
  else none

/-- `record_event` (engine.py lines 140-146): appends an `Event` carrying a
snapshot of every player's trust scores.  All optional keyword arguments of
the Python function are passed positionally here. -/
def record_event (state : GameState) (description : String)
    (actor_id : Option Nat) (target_id : Option Nat)
    (recommendation : Option Recommendation) (statement : Option Statement)
    (votes : Option (List (Nat × Nat)))
    (vote_reasons : Option (List (Nat × String))) : GameState :=
  let trust_snapshot := state.private_info.map (fun kv => (kv.1, kv.2.trust_scores))
  { state with
    public_events := state.public_events ++
      [{ day := state.day, phase := state.phase, description := description,
         actor_id := actor_id, target_id := target_id,
         recommendation := recommendation, statement := statement,
         votes := votes, vote_reasons := vote_reasons,
         trust_scores := some trust_snapshot }] }

/-- `kill_player`'s loop body (engine.py lines 218-222): mark the first
player with the given id dead (the Python loop `break`s after one match). -/
def kill_in_list : List Player → Nat → String → List Player
  | [], _, _ => []
  | p :: rest, target, reason =>
      if p.player_id = target then
        { p with alive := false, death_reason := some reason } :: rest
      else
        p :: kill_in_list rest target reason

/-- `kill_player` (engine.py lines 214-222). -/
def kill_player (state : GameState) (target_id : Option Nat) (reason : String) :
    GameState :=
  match target_id with
  | none => state
  | some target => { state with players := kill_in_list state.players target reason }

/-- Update one entry of `private_info`; `none` models the `KeyError` the
Python subscript raises when the id is absent. -/
def upd_private (d : List (Nat × PlayerPrivate)) (pid : Nat)
    (f : PlayerPrivate → PlayerPrivate) : Option (List (Nat × PlayerPrivate)) :=
  match alookup d pid with
  | none => none
  | some pi => some (aset d pid (f pi))

/-- `resolve_night` (engine.py lines 188-199). -/
def resolve_night (state : GameState) : GameState :=
  let state :=
    match state.pending_kill with
    | none => state
    | some pk =>
        let s := kill_player state (some pk) "WOLF"
        let s := record_event s "夜晚击杀生效" none (some pk) none none none none
        { s with pending_kill := none }
  match check_winner state with
  | some w =>
      record_event { state with winner := some w, phase := Phase.GAME_OVER }
        "游戏结束" none none none none none none
  | none => { state with phase := Phase.DAY_DISCUSS }

/-- `resolve_day` (engine.py lines 203-211). -/
def resolve_day (state : GameState) : GameState :=
  match check_winner state with
  | some w =>
      record_event { state with winner := some w, phase := Phase.GAME_OVER }
        "游戏结束" none none none none none none
  | none => { state with day := state.day + 1, phase := Phase.NIGHT_WOLF }

/-- `apply_action` (engine.py lines 150-185).  `none` models an uncaught
Python exception (missing player or missing `private_info` entry); when the
function falls through every `if`, the state is returned unchanged. -/
def apply_action (state : GameState) (action : Action)
    (recommendation : Option Recommendation) : Option GameState :=
  if state.phase = Phase.NIGHT_WOLF ∧ action.action_type = ActionType.KILL then
    let s := { state with pending_kill := action.target_id }
    let s := record_event s "狼人选择了目标" (some action.actor_id) action.target_id
      recommendation none none none
    some { s with phase := Phase.NIGHT_SEER }
  else if state.phase = Phase.NIGHT_SEER ∧ action.action_type = ActionType.CHECK then
    match action.target_id with
    | none => none
    | some target =>
      match role_of state target with
      | none => none
      | some target_role =>
        match upd_private state.private_info action.actor_id
            (fun pi => { pi with
              seer_results := aset pi.seer_results target (target_role = Role.WOLF) }) with
        | none => none
        | some d =>
          let s := { state with private_info := d }
          let s := record_event s "预言家查验了目标" (some action.actor_id) (some target)
            recommendation none none none
          some { s with phase := Phase.NIGHT_WITCH }
  else if state.phase = Phase.NIGHT_WITCH then
    let afterSave : Option GameState :=
      if action.action_type = ActionType.SAVE ∧ action.target_id.isSome then
        match action.target_id with
        | none => none
        | some target =>
          match upd_private state.private_info action.actor_id
              (fun pi => { pi with witch_state :=
                { pi.witch_state with save_used := true, saved_player_id := some target } }) with
          | none => none
          | some d =>
            let s := { state with private_info := d }
            let s := record_event s "女巫使用了解药" (some action.actor_id) (some target)
              recommendation none none none
            some (if s.pending_kill = some target then { s with pending_kill := none } else s)
      else some state
    match afterSave with
    | none => none
    | some s1 =>
      let afterPoison : Option GameState :=
        if action.action_type = ActionType.POISON ∧ action.target_id.isSome then
          match action.target_id with
          | none => none
          | some target =>
            match upd_private s1.private_info action.actor_id
                (fun pi => { pi with witch_state :=
                  { pi.witch_state with poison_used := true } }) with
            | none => none
            | some d =>
              let s := { s1 with private_info := d }
              let s := record_event s "女巫使用了毒药" (some action.actor_id) (some target)
                recommendation none none none
              some (kill_player s (some target) "WITCH")
        else some s1
      match afterPoison with
      | none => none
      | some s2 =>
        let s3 :=
          if action.action_type = ActionType.PASS then
            record_event s2 "女巫选择了不使用药水" (some action.actor_id) none
              recommendation none none none
          else s2
        some (resolve_night s3)
  else if state.phase = Phase.DAY_DISCUSS ∧ action.action_type = ActionType.SPEAK then
    some (record_event state "玩家发言" (some action.actor_id) none
      recommendation action.statement none none)
  else if state.phase = Phase.DAY_VOTE ∧ action.action_type = ActionType.VOTE then
    let s := kill_player state action.target_id "VOTE"
    let s := record_event s "放逐了玩家" (some action.actor_id) action.target_id
      recommendation none none none
    some (resolve_day s)
  else
    some state

/-- `get_unshot_dead_hunters` (engine.py lines 225-227). -/
def get_unshot_dead_hunters (state : GameState) : List Player :=
  let dead_hunters := state.players.filter (fun p => p.role = Role.HUNTER ∧ ¬ p.alive)
  dead_hunters.filter (fun h =>
    ¬ state.public_events.any (fun e =>
      e.description = "猎人开枪" ∧ e.actor_id = some h.player_id))

/-- Projection of an `Event` used in `get_player_view`. -/
structure EventBrief where
  day : Nat
  phase : Phase
  description : String
  actor_id : Option Nat
  target_id : Option Nat
deriving DecidableEq, Repr

/-- One entry of the view's `all_players_state` mapping. -/
structure PlayerStateView where
  alive : Bool
  role : Role
  death_reason : Option String
deriving DecidableEq, Repr

/-- The dictionary returned by `get_player_view` (engine.py lines 230-262). -/
structure PlayerView where
  player_id : Nat
  role : Role
  alive : Bool
  day : Nat
  phase : Phase
  seer_results : List (Nat × Bool)
  witch_save_used : Bool
  witch_poison_used : Bool
  public_events : List EventBrief
  alive_player_ids : List Nat
  all_players_state : List (Nat × PlayerStateView)
deriving DecidableEq, Repr

/-- `get_player_view` (engine.py lines 230-262); `none` models the exception
when the requesting id has no player or no `private_info` entry. -/
def get_player_view (state : GameState) (player_id : Nat) : Option PlayerView :=
  match get_player state player_id with
  | none => none
  | some player =>
    match alookup state.private_info player_id with
    | none => none
    | some private_data =>
      some {
        player_id := player_id,
        role := player.role,
        alive := player.alive,
        day := state.day,
        phase := state.phase,
        seer_results := private_data.seer_results,
        witch_save_used := private_data.witch_state.save_used,
        witch_poison_used := private_data.witch_state.poison_used,
        public_events := state.public_events.map (fun e =>
          { day := e.day, phase := e.phase, description := e.description,
            actor_id := e.actor_id, target_id := e.target_id }),
        alive_player_ids := (alive_players state).map Player.player_id,
        all_players_state := state.players.map (fun p =>
          (p.player_id,
            { alive := p.alive, role := p.role, death_reason := p.death_reason })) }

/-! ## Game-loop helpers (`src/werewolf/simulator.py` and
`src/games/werewolf_simulator/werewolf/simulator.py`) -/

/-- The external strategy's `choose_hunter_shot`, abstracted: the hunter
termination property holds for every chooser. -/
def Chooser : Type := GameState → Nat → Option Nat

/-- Body of the `for hunter in unshot` loop of `resolve_hunter_shots`
(simulator.py lines 248-252): record the shot event, then kill the chosen
target (if any). -/
def hunter_shot_step (chooser : Chooser) (state : GameState) (hunter : Player) :
    GameState :=
  let target_id := chooser state hunter.player_id
  let s := record_event state "猎人开枪" (some hunter.player_id) target_id
    none none none none
  kill_player s target_id "HUNTER"

/-- `resolve_hunter_shots` (simulator.py lines 243-252), the Python
`while True` loop bounded by explicit fuel; the theorems show that fuel
equal to the player count always reaches the loop's exit condition. -/
def resolve_hunter_shots : Nat → Chooser → GameState → GameState
  | 0, _, state => state
  | fuel + 1, chooser, state =>
      let unshot := get_unshot_dead_hunters state
      if unshot.isEmpty then state
      else resolve_hunter_shots fuel chooser
        (unshot.foldl (hunter_shot_step chooser) state)

/-- `finalize_after_hunter` (simulator.py lines 255-263). -/
def finalize_after_hunter (state : GameState) : GameState :=
  if state.phase = Phase.GAME_OVER then state
  else
    match check_winner state with
    | some w =>
        record_event { state with winner := some w, phase := Phase.GAME_OVER }
          "游戏结束" none none none none none none
    | none => state

/-- `vote_counts[target] = vote_counts.get(target, 0) + 1` on an
insertion-ordered dict. -/
def bump_vote (counts : List (Nat × Nat)) (target : Nat) : List (Nat × Nat) :=
  aset counts target ((alookup counts target).getD 0 + 1)

/-- Vote tallying of the day-vote resolution
(games simulator.py lines 93-95, werewolf simulator.py lines 114-116):
`for target in vote_map.values(): vote_counts[target] += 1`. -/
def tally_votes (vote_map : List (Nat × Nat)) : List (Nat × Nat) :=
  (vote_map.map Prod.snd).foldl bump_vote []

/-- Stable insertion (descending by vote count) used to model Python's
stable `sorted(..., key=lambda x: x[1], reverse=True)`: an element is
placed before the first element whose count does not exceed it, so earlier
elements keep their position among equals. -/
def insert_desc (x : Nat × Nat) : List (Nat × Nat) → List (Nat × Nat)
  | [] => [x]
  | y :: ys => if y.2 ≤ x.2 then x :: y :: ys else y :: insert_desc x ys

/-- Stable descending sort by vote count (model of the Python `sorted`
call in both simulators). -/
def sort_votes_desc : List (Nat × Nat) → List (Nat × Nat)
  | [] => []
  | x :: xs => insert_desc x (sort_votes_desc xs)

/-- Exile decision of the day-vote resolution (games simulator.py lines
97-115; identical logic at werewolf simulator.py lines 125-147): sort the
tallies descending; a tie at the top exiles nobody, otherwise the top
target is exiled. -/
def day_vote_outcome (vote_counts : List (Nat × Nat)) : Option Nat :=
  match sort_votes_desc vote_counts with
  | [] => none
  | (top_target, top_count) :: rest =>
      let is_tie :=
        match rest with
        | [] => false
        | (_, c2) :: _ => c2 = top_count
      if is_tie then none else some top_target

/-- Full day-vote resolution from the raw vote map. -/
def day_vote_resolve (vote_map : List (Nat × Nat)) : Option Nat :=
  day_vote_outcome (tally_votes vote_map)

/-- Effect of the day-vote resolution on the state (games simulator.py
lines 97-123): record the vote event, then kill the exiled player (if
any) with cause VOTE. -/
def day_vote_apply (state : GameState) (vote_map : List (Nat × Nat))
    (vote_reasons : List (Nat × String)) : GameState :=
  let exiled := day_vote_resolve vote_map
  let description :=
    if (tally_votes vote_map).isEmpty then "无人投票"
    else
      match exiled with
      | some pid => "投票结果：放逐玩家 " ++ toString pid
      | none => "投票结果：平票，无人被放逐"
  let s := record_event state description none exiled none none
    (some vote_map) (some vote_reasons)
  match exiled with
  | some pid => kill_player s (some pid) "VOTE"
  | none => s

/-! ## Random stream model

`random.Random` / the module-level `random` are modelled as a stream of
naturals consumed one draw at a time (see the header). -/

/-- A pseudo-random source: an infinite stream of naturals plus the
position of the next unread element. -/
structure Rng where
  gen : Nat → Nat
  pos : Nat

/-- Consume one draw. -/
def Rng.next (r : Rng) : Nat × Rng :=
  (r.gen r.pos, { r with pos := r.pos + 1 })

/-- `random.choice(xs)`: one draw selects index `v % len(xs)`.  The default
`d` is only reachable when `xs` is empty, which every call site guards
against (Python would raise there). -/
def rand_choice {α : Type} (xs : List α) (d : α) (r : Rng) : α × Rng :=
  let (v, r') := r.next
  (xs.getD (v % xs.length) d, r')

/-- `random.random() < p/100`: one draw, true when `v % 100 < p`.  The
draw is an abstract Bernoulli outcome; theorems quantify over the
stream, so both outcomes are covered. -/
def rand_chance (p : Nat) (r : Rng) : Bool × Rng :=
  let (v, r') := r.next
  (v % 100 < p, r')

/-- Swap two positions of a list (`x[i], x[j] = x[j], x[i]`). -/
def list_swap {α : Type} (xs : List α) (i j : Nat) : List α :=
  match xs.get? i, xs.get? j with
  | some a, some b => (xs.set i b).set j a
  | _, _ => xs

/-- Fisher-Yates inner loop of `random.shuffle`: for `i` from `len-1`
down to `1`, draw `j = v % (i+1)` and swap positions `i` and `j`.
The argument of `shuffle_go` is `i - 1`. -/
def shuffle_go {α : Type} : Nat → List α → Rng → List α × Rng
  | 0, xs, r => (xs, r)
  | i + 1, xs, r =>
      let (v, r') := r.next
      shuffle_go i (list_swap xs (i + 1) (v % (i + 2))) r'

/-- `random.shuffle(xs)`. -/
def shuffle {α : Type} (xs : List α) (r : Rng) : List α × Rng :=
  match xs.length with
  | 0 => (xs, r)
  | n + 1 => shuffle_go n xs r

/-! ## Rollout state and simulator
(`src/games/werewolf_simulator/werewolf/estimation.py`) -/

/-- `FastState` (estimation.py lines 10-17).  The Python `Set[int]` of
living ids is modelled as a duplicate-free list; `discard` is `filter`. -/
structure FastState where
  roles : List (Nat × Role)
  alive : List Nat
  witch_save_used : Bool
  witch_poison_used : Bool
  seer_checked : List (Nat × Bool)
deriving DecidableEq, Repr

/-- `FastState.is_game_over` (estimation.py lines 22-30).  Python's
`self.roles[pid]` raises on a missing id; the embedding classifies a
missing id as non-wolf, and the corresponding theorem assumes every
living id carries a role. -/
def FastState.is_game_over (s : FastState) : Option Faction :=
  let wolves := s.alive.filter (fun pid => alookup s.roles pid = some Role.WOLF)
  let good := s.alive.filter (fun pid => ¬ alookup s.roles pid = some Role.WOLF)
  if wolves.isEmpty then some Faction.VILLAGE
  else if good.length ≤ wolves.length then some Faction.WOLF
  else none

/-- `FastSimulator._find_role` (estimation.py lines 189-192): first id in
the role map (insertion order) holding the role. -/
def find_role (s : FastState) (role : Role) : Option Nat :=
  (s.roles.find? (fun kv => kv.2 = role)).map Prod.fst

/-- `x in s` for an optional `x` (Python: `None in s` is false). -/
def opt_mem (o : Option Nat) (xs : List Nat) : Bool :=
  match o with
  | none => false
  | some x => xs.contains x

/-- Python truthiness of an optional player id: `None` and id `0` are
falsy.  `_day_phase` tests `if wolf_target:` and `if known_wolf:`, so a
target with id 0 silently disables those branches. -/
def truthy (o : Option Nat) : Bool :=
  match o with
  | none => false
  | some n => n ≠ 0

/-- `FastSimulator._wolf_choose_target` (estimation.py lines 169-187):
a living seer, else a living witch, else a uniformly chosen living
non-wolf; `None` when no non-wolf lives. -/
def wolf_choose_target (s : FastState) (r : Rng) : Option Nat × Rng :=
  let good_alive := s.alive.filter (fun p => ¬ alookup s.roles p = some Role.WOLF)
  if good_alive.isEmpty then (none, r)
  else
    let seer := find_role s Role.SEER
    let witch := find_role s Role.WITCH
    if opt_mem seer s.alive then (seer, r)
    else if opt_mem witch s.alive then (witch, r)
    else
      let (t, r') := rand_choice good_alive 0 r
      (some t, r')

/-- `FastSimulator._night_phase` (estimation.py lines 62-106). -/
def night_phase (s : FastState) (r : Rng) : FastState × Rng :=
  let (target, r) := wolf_choose_target s r
  let witch_id := find_role s Role.WITCH
  let savePart :=
    if opt_mem witch_id s.alive && !s.witch_save_used then
      let (b, r') := rand_chance 80 r
      if b then ((true, true), r') else ((false, s.witch_save_used), r')
    else ((false, s.witch_save_used), r)
  let saved := savePart.1.1
  let save_used := savePart.1.2
  let r := savePart.2
  let poisonPart :=
    if opt_mem witch_id s.alive && !s.witch_poison_used then
      let (b, r') := rand_chance 30 r
      if b then
        let candidates := s.alive.filter (fun p => some p ≠ witch_id)
        if candidates.isEmpty then (((none : Option Nat), s.witch_poison_used), r')
        else
          let (t, r'') := rand_choice candidates 0 r'
          ((some t, true), r'')
      else ((none, s.witch_poison_used), r')
    else ((none, s.witch_poison_used), r)
  let poison_target := poisonPart.1.1
  let poison_used := poisonPart.1.2
  let r := poisonPart.2
  let seer_id := find_role s Role.SEER
  let seerPart :=
    if opt_mem seer_id s.alive then
      let unknowns := s.alive.filter
        (fun p => some p ≠ seer_id && !(amem s.seer_checked p))
      if unknowns.isEmpty then (s.seer_checked, r)
      else
        let (c, r') := rand_choice unknowns 0 r
        (aset s.seer_checked c (alookup s.roles c = some Role.WOLF), r')
    else (s.seer_checked, r)
  let seer_checked := seerPart.1
  let r := seerPart.2
  let deaths :=
    (match target with
     | some t => if !saved then [t] else []
     | none => []) ++
    (match poison_target with
     | some t => [t]
     | none => [])
  let alive' := deaths.foldl (fun al d => al.filter (fun p => p ≠ d)) s.alive
  ({ roles := s.roles, alive := alive', witch_save_used := save_used,
     witch_poison_used := poison_used, seer_checked := seer_checked }, r)

/-- The vote tally built in `FastSimulator._day_phase` (estimation.py
lines 109-148): wolves all vote the wolf target, each good player votes
the seer-exposed wolf if one is known, otherwise a random other living
player.  Note the Python truthiness tests on `wolf_target` and
`known_wolf`. -/
def day_phase_votes (s : FastState) (r : Rng) : List (Nat × Nat) × Rng :=
  let seer_id := find_role s Role.SEER
  let known_wolf : Option Nat :=
    if opt_mem seer_id s.alive then
      (s.seer_checked.find? (fun kv => kv.2 && s.alive.contains kv.1)).map Prod.fst
    else none
  let wolves := s.alive.filter (fun p => alookup s.roles p = some Role.WOLF)
  let good := s.alive.filter (fun p => ¬ alookup s.roles p = some Role.WOLF)
  let wolfPart :=
    if good.isEmpty then ((none : Option Nat), r)
    else
      let (t, r') := rand_choice good 0 r
      (some t, r')
  let wolf_target := wolfPart.1
  let r := wolfPart.2
  let votes := wolves.foldl
    (fun votes _w =>
      if truthy wolf_target then bump_vote votes (wolf_target.getD 0) else votes)
    ([] : List (Nat × Nat))
  let goodPart := good.foldl
    (fun (acc : List (Nat × Nat) × Rng) g =>
      let (votes, r) := acc
      if truthy known_wolf then (bump_vote votes (known_wolf.getD 0), r)
      else
        let candidates := s.alive.filter (fun p => p ≠ g)
        if candidates.isEmpty then (votes, r)
        else
          let (v, r') := rand_choice candidates 0 r
          (bump_vote votes v, r'))
    (votes, r)
  goodPart

/-- `FastSimulator._day_phase` (estimation.py lines 108-167): the
top-sorted vote target is removed from the living set — there is no tie
check — and a dead hunter immediately shoots a random living player. -/
def day_phase (s : FastState) (r : Rng) : FastState × Rng :=
  let (votes, r) := day_phase_votes s r
  if votes.isEmpty then (s, r)
  else
    let sorted_votes := sort_votes_desc votes
    let top_target := (sorted_votes.headD (0, 0)).1
    let alive' := s.alive.filter (fun p => p ≠ top_target)
    if alookup s.roles top_target = some Role.HUNTER then
      let candidates := alive'
      if candidates.isEmpty then ({ s with alive := alive' }, r)
      else
        let (shot, r') := rand_choice candidates 0 r
        ({ s with alive := alive'.filter (fun p => p ≠ shot) }, r')
    else ({ s with alive := alive' }, r)

/-- The body of `FastSimulator.run` (estimation.py lines 47-60) with
explicit fuel: the Python `for _ in range(20)` loop; fuel exhaustion
returns the Village faction. -/
def fast_run_aux : Nat → FastState → Rng → Faction × Rng
  | 0, _, r => (Faction.VILLAGE, r)
  | n + 1, s, r =>
      match s.is_game_over with
      | some w => (w, r)
      | none =>
        let (s, r) := night_phase s r
        match s.is_game_over with
        | some w => (w, r)
        | none =>
          let (s, r) := day_phase s r
          fast_run_aux n s r

/-- `FastSimulator.run` (estimation.py lines 47-60): twenty cycles. -/
def fast_run (s : FastState) (r : Rng) : Faction × Rng :=
  fast_run_aux 20 s r

/-- `no_winner_through n s r` holds when every win-condition check the
first `n` cycles of `fast_run_aux` perform returns no winner (so the run
reaches the fuel-exhaustion fallback). -/
def no_winner_through : Nat → FastState → Rng → Bool
  | 0, _, _ => true
  | n + 1, s, r =>
      s.is_game_over = none &&
      ((night_phase s r).1.is_game_over = none &&
        no_winner_through n
          (day_phase (night_phase s r).1 (night_phase s r).2).1
          (day_phase (night_phase s r).1 (night_phase s r).2).2)

/-! ## Win-rate estimator (`estimation.py`, class `WinRateEstimator`) -/

/-- The `fixed_roles` dict built by `estimate` (estimation.py lines
219-252): the observer's own role; all wolves if the observer is a wolf;
every seer-checked target labelled `WOLF`, or `VILLAGER` when checked
good ("Simplified Good"); the true role of every dead player. -/
def fixed_roles_of (state : GameState) (actor_id : Nat) (my_role : Role) :
    List (Nat × Role) :=
  let fr : List (Nat × Role) := aset [] actor_id my_role
  let fr :=
    if my_role = Role.WOLF then
      state.players.foldl
        (fun fr p => if p.role = Role.WOLF then aset fr p.player_id Role.WOLF else fr)
        fr
    else fr
  let fr :=
    if my_role = Role.SEER then
      match alookup state.private_info actor_id with
      | none => fr
      | some private_data =>
          private_data.seer_results.foldl
            (fun fr kv => aset fr kv.1 (if kv.2 then Role.WOLF else Role.VILLAGER))
            fr
    else fr
  state.players.foldl
    (fun fr p => if ¬ p.alive then aset fr p.player_id p.role else fr)
    fr

/-- One step of the pool construction (estimation.py lines 262-271):
`if role in pool: pool.remove(role)`; the `elif` branch only `pass`es, so
a role absent from the pool removes nothing. -/
def pool_remove (pool : List Role) (role : Role) : List Role :=
  if role ∈ pool then pool.erase role else pool

/-- The residual pool (estimation.py lines 255-264): all players' true
roles minus one occurrence per fixed role, when present. -/
def residual_pool (state : GameState) (fixed : List (Nat × Role)) : List Role :=
  let all_roles_list := state.players.map Player.role
  fixed.foldl (fun pool kv => pool_remove pool kv.2) all_roles_list

/-- `unknown_players` (estimation.py line 279). -/
def unknown_players_of (state : GameState) (fixed : List (Nat × Role)) : List Nat :=
  (state.players.filter (fun p => ¬ amem fixed p.player_id)).map Player.player_id

/-- `known_good_ids` (estimation.py lines 282-288): the observer's
seer-checked non-wolf targets, when the observer is the seer. -/
def known_good_ids_of (state : GameState) (actor_id : Nat) (my_role : Role) :
    List Nat :=
  if my_role = Role.SEER then
    match alookup state.private_info actor_id with
    | none => []
    | some private_data =>
        (private_data.seer_results.filter (fun kv => kv.2 = false)).map Prod.fst
  else []

/-- Pop the first non-wolf element of the pool (estimation.py lines
327-333: `for i, r in enumerate(temp_pool): if r != Role.WOLF: ...
temp_pool.pop(i)`); `none` models `found = False`. -/
def pop_first_good : List Role → Option (Role × List Role)
  | [] => none
  | x :: xs =>
      if x ≠ Role.WOLF then some (x, xs)
      else
        match pop_first_good xs with
        | none => none
        | some (y, ys) => some (y, x :: ys)

/-- Result of one assignment attempt (estimation.py lines 318-344). -/
inductive AttemptResult where
  /-- An uncaught `IndexError`: `temp_pool.pop(0)` on an empty pool. -/
  | crash
  /-- `possible = False`: some constrained player found no non-wolf role. -/
  | failed
  /-- A valid assignment. -/
  | ok (assignment : List (Nat × Role))
deriving Repr

/-- One attempt of the rejection-sampling loop, given the already
shuffled pool: pop a non-wolf role for every constrained player, then
`pop(0)` for the rest. -/
def one_attempt (current_pool : List Role) (must_be_good others : List Nat) :
    AttemptResult :=
  let constrained : Option (List (Nat × Role) × List Role) :=
    must_be_good.foldl
      (fun acc mg =>
        match acc with
        | none => none
        | some (assignment, temp_pool) =>
            match pop_first_good temp_pool with
            | none => none
            | some (role, rest) => some (aset assignment mg role, rest))
      (some ([], current_pool))
  match constrained with
  | none => AttemptResult.failed
  | some (assignment, temp_pool) =>
      let rest : Option (List (Nat × Role) × List Role) :=
        others.foldl
          (fun acc o =>
            match acc with
            | none => none
            | some (assignment, temp_pool) =>
                match temp_pool with
                | [] => none
                | role :: rest => some (aset assignment o role, rest))
          (some (assignment, temp_pool))
      match rest with
      | none => AttemptResult.crash
      | some (assignment, _) => AttemptResult.ok assignment

/-- The `for attempt in range(attempt_limit)` loop (estimation.py lines
314-344): each attempt reshuffles the (mutated) `current_pool`.  Returns
`none` on an uncaught `IndexError`; otherwise the found assignment (or
`none` inside when no attempt succeeded) with the final pool and
stream. -/
def attempts_loop :
    Nat → List Role → List Nat → List Nat → Rng →
    Option (Option (List (Nat × Role)) × List Role × Rng)
  | 0, cp, _, _, r => some (none, cp, r)
  | n + 1, cp, must_be_good, others, r =>
      let (cp, r) := shuffle cp r
      match one_attempt cp must_be_good others with
      | AttemptResult.crash => none
      | AttemptResult.ok a => some (some a, cp, r)
      | AttemptResult.failed => attempts_loop n cp must_be_good others r

/-- The unconstrained fallback (estimation.py lines 346-351):
`assigned_map[uid] = current_pool[i]`; `none` models the `IndexError`
when the pool is shorter than the unknown-player list. -/
def fallback_assign :
    List Nat → Nat → List Role → List (Nat × Role) → Option (List (Nat × Role))
  | [], _, _, acc => some acc
  | u :: us, i, cp, acc =>
      match cp.get? i with
      | none => none
      | some role => fallback_assign us (i + 1) cp (aset acc u role)

/-- `temp_roles.update(assigned_map)` (estimation.py line 353). -/
def dict_update (d e : List (Nat × Role)) : List (Nat × Role) :=
  e.foldl (fun d kv => aset d kv.1 kv.2) d

/-- One sampled world (one iteration of the simulation loop, estimation.py
lines 295-353): shuffle the pool, run the bounded rejection-sampling
attempts, fall back to unconstrained indexing when they all fail, and
overlay the assignment on the fixed roles. -/
def sample_world (fixed : List (Nat × Role)) (pool : List Role)
    (unknown_players known_good_ids : List Nat) (r : Rng) :
    Option (List (Nat × Role) × Rng) :=
  let (current_pool, r) := shuffle pool r
  let must_be_good := unknown_players.filter (fun uid => known_good_ids.contains uid)
  let others := unknown_players.filter (fun uid => !known_good_ids.contains uid)
  match attempts_loop 10 current_pool must_be_good others r with
  | none => none
  | some (some assigned, _, r) => some (dict_update fixed assigned, r)
  | some (none, current_pool, r) =>
      let (current_pool, r) := shuffle current_pool r
      match fallback_assign unknown_players 0 current_pool [] with
      | none => none
      | some assigned => some (dict_update fixed assigned, r)

/-- The `FastState` composed for one rollout (estimation.py lines
355-385): the sampled role map, the currently living ids, the observer's
real witch flags when the observer is the witch (fresh otherwise), the
observer's seer results when the observer is the seer (empty
otherwise). -/
def estimate_build_state (state : GameState) (actor_id : Nat) (my_role : Role)
    (world : List (Nat × Role)) : FastState :=
  let w_flags :=
    if my_role = Role.WITCH then
      match alookup state.private_info actor_id with
      | some pr => (pr.witch_state.save_used, pr.witch_state.poison_used)
      | none => (false, false)
    else (false, false)
  let checked :=
    if my_role = Role.SEER then
      match alookup state.private_info actor_id with
      | some pr => pr.seer_results
      | none => []
    else []
  { roles := world,
    alive := (state.players.filter (fun p => p.alive)).map Player.player_id,
    witch_save_used := w_flags.1,
    witch_poison_used := w_flags.2,
    seer_checked := checked }

/-- The simulation loop of `estimate` (estimation.py lines 294-391),
returning the win count together with the list of sampled worlds (the
worlds are collected for specification purposes; `estimate` consumes
only the win count). -/
def estimate_sims (state : GameState) (actor_id : Nat) (my_role : Role)
    (my_faction : Faction) (fixed : List (Nat × Role)) (pool : List Role)
    (unknown_players known_good_ids : List Nat) :
    Nat → Rng → Option (Nat × List (List (Nat × Role)) × Rng)
  | 0, r => some (0, [], r)
  | n + 1, r =>
      match sample_world fixed pool unknown_players known_good_ids r with
      | none => none
      | some (world, r) =>
          let sim_state := estimate_build_state state actor_id my_role world
          let (winner, r) := fast_run sim_state r
          match estimate_sims state actor_id my_role my_faction fixed pool
              unknown_players known_good_ids n r with
          | none => none
          | some (wins, worlds, r) =>
              some ((if winner = my_faction then 1 else 0) + wins, world :: worlds, r)

/-- `WinRateEstimator.estimate` (estimation.py lines 203-393): `none`
models an uncaught exception inside the sampling; a missing observer
returns 0.5 (line 212). -/
def estimate (num_simulations : Nat) (state : GameState) (actor_id : Nat)
    (r : Rng) : Option (ℚ × Rng) :=
  match state.players.find? (fun p => p.player_id = actor_id) with
  | none => some (1 / 2, r)
  | some my_player =>
      let my_role := my_player.role
      let my_faction := if my_role = Role.WOLF then Faction.WOLF else Faction.VILLAGE
      let fixed := fixed_roles_of state actor_id my_role
      let pool := residual_pool state fixed
      let unknown := unknown_players_of state fixed
      let known_good := known_good_ids_of state actor_id my_role
      match estimate_sims state actor_id my_role my_faction fixed pool unknown
          known_good num_simulations r with
      | none => none
      | some (wins, _, r) => some ((wins : ℚ) / (num_simulations : ℚ), r)

/-- The worlds `estimate` samples (projection of `estimate_sims`); the
empty list covers the early 0.5 return and the exception path. -/
def estimate_worlds (num_simulations : Nat) (state : GameState) (actor_id : Nat)
    (r : Rng) : List (List (Nat × Role)) :=
  match state.players.find? (fun p => p.player_id = actor_id) with
  | none => []
  | some my_player =>
      let my_role := my_player.role
      let my_faction := if my_role = Role.WOLF then Faction.WOLF else Faction.VILLAGE
      let fixed := fixed_roles_of state actor_id my_role
      let pool := residual_pool state fixed
      let unknown := unknown_players_of state fixed
      let known_good := known_good_ids_of state actor_id my_role
      match estimate_sims state actor_id my_role my_faction fixed pool unknown
          known_good num_simulations r with
      | none => []
      | some (_, worlds, _) => worlds

/-- Multiset of roles a sampled world assigns to the game's players. -/
def world_role_multiset (world : List (Nat × Role)) (players : List Player) :
    Multiset Role :=
  (players.map (fun p => (alookup world p.player_id).getD Role.VILLAGER) : List Role)

/-- Multiset of roles configured by a `GameConfig`. -/
def config_role_multiset (config : GameConfig) : Multiset Role :=
  config.roles.foldl (fun m kv => m + Multiset.replicate kv.2 kv.1) 0

/-! ## Theorems -/

/-- C1: The win-condition check is total and resolves the boundary to
Village: with no living wolves the result is a Village win (even when the
wolf-majority premise holds vacuously); with at least one living wolf and
at least as many living wolves as living non-wolves the result is a Wolf
win; otherwise there is no winner.  Both for the authoritative
`check_winner` and for the rollout `FastState.is_game_over` (whose
hypothesis states that every living id carries a role, the domain on
which the Python code does not raise). -/
theorem claim1_win_condition_boundary (state : GameState) (fs : FastState)
    (hdom : ∀ pid ∈ fs.alive, (alookup fs.roles pid).isSome = true) :
    (((alive_players state).filter (fun p => p.role = Role.WOLF) = [] →
        check_winner state = some Faction.VILLAGE) ∧
     (((alive_players state).filter (fun p => p.role = Role.WOLF) ≠ []) →
        ((alive_players state).filter (fun p => p.role ≠ Role.WOLF)).length ≤
          ((alive_players state).filter (fun p => p.role = Role.WOLF)).length →
        check_winner state = some Faction.WOLF) ∧
     (((alive_players state).filter (fun p => p.role = Role.WOLF) ≠ []) →
        ((alive_players state).filter (fun p => p.role = Role.WOLF)).length <
        ((alive_players state).filter (fun p => p.role ≠ Role.WOLF)).length →
        check_winner state = none)) ∧
    ((fs.alive.filter (fun pid => alookup fs.roles pid = some Role.WOLF) = [] →
        fs.is_game_over = some Faction.VILLAGE) ∧
     ((fs.alive.filter (fun pid => alookup fs.roles pid = some Role.WOLF) ≠ []) →
        (fs.alive.filter (fun pid => ¬ alookup fs.roles pid = some Role.WOLF)).length ≤
          (fs.alive.filter (fun pid => alookup fs.roles pid = some Role.WOLF)).length →
        fs.is_game_over = some Faction.WOLF) ∧
     ((fs.alive.filter (fun pid => alookup fs.roles pid = some Role.WOLF) ≠ []) →
        (fs.alive.filter (fun pid => alookup fs.roles pid = some Role.WOLF)).length <
        (fs.alive.filter (fun pid => ¬ alookup fs.roles pid = some Role.WOLF)).length →
        fs.is_game_over = none)) := by
  constructor
  · refine ⟨?_, ?_, ?_⟩
    · intro h
      simp only [check_winner, h, List.isEmpty_nil, if_true]
    · intro hne hlen
      simp only [check_winner]
      rw [if_neg, if_pos hlen]
      simp [List.isEmpty_iff, hne]
    · intro hne hlt
      simp only [check_winner]
      rw [if_neg, if_neg (by omega)]
      simp [List.isEmpty_iff, hne]
  · refine ⟨?_, ?_, ?_⟩
    · intro h
      simp only [FastState.is_game_over, h, List.isEmpty_nil, if_true]
    · intro hne hlen
      simp only [FastState.is_game_over]
      rw [if_neg, if_pos hlen]
      simp [List.isEmpty_iff, hne]
    · intro hne hlt
      simp only [FastState.is_game_over]
      rw [if_neg, if_neg (by omega)]
      simp [List.isEmpty_iff, hne]

/-- Boundary state for the C1 witness: zero wolves, one living villager. -/
def oneVillagerState : GameState :=
  { players := [{ player_id := 0, role := Role.VILLAGER }],
    day := 1, phase := Phase.NIGHT_WOLF,
    config := { player_count := 1, roles := [(Role.VILLAGER, 1)] } }

/-- Rollout counterpart of `oneVillagerState`. -/
def oneVillagerFast : FastState :=
  { roles := [(0, Role.VILLAGER)], alive := [0],
    witch_save_used := false, witch_poison_used := false, seer_checked := [] }

/-- Witness for C1 at the spec's boundary instance (0 wolves, 1 villager):
both checks resolve to a Village win. -/
theorem claim1_witness :
    check_winner oneVillagerState = some Faction.VILLAGE ∧
    oneVillagerFast.is_game_over = some Faction.VILLAGE :=
  ⟨(claim1_win_condition_boundary oneVillagerState oneVillagerFast
      (by decide)).1.1 (by decide),
   (claim1_win_condition_boundary oneVillagerState oneVillagerFast
      (by decide)).2.1 (by decide)⟩

/-! ### Vote-sort helper lemmas -/

/-- Largest vote count occurring in a tally. -/
def max_count (l : List (Nat × Nat)) : Nat :=
  (l.map Prod.snd).foldr max 0

theorem max_count_cons (x : Nat × Nat) (l : List (Nat × Nat)) :
    max_count (x :: l) = max x.2 (max_count l) := rfl

theorem le_max_count {l : List (Nat × Nat)} {x : Nat × Nat} (hx : x ∈ l) :
    x.2 ≤ max_count l := by
  induction l with
  | nil => cases hx
  | cons y ys ih =>
    rw [max_count_cons]
    rcases List.mem_cons.mp hx with h | h
    · subst h; exact le_max_left _ _
    · exact le_trans (ih h) (le_max_right _ _)

theorem exists_mem_max_count {l : List (Nat × Nat)} (hl : l ≠ []) :
    ∃ x ∈ l, x.2 = max_count l := by
  induction l with
  | nil => cases hl rfl
  | cons y ys ih =>
    rw [max_count_cons]
    by_cases hys : ys = []
    · subst hys
      exact ⟨y, List.mem_cons_self _ _, by simp [max_count]⟩
    · obtain ⟨x, hx, hmx⟩ := ih hys
      by_cases hc : max_count ys ≤ y.2
      · exact ⟨y, List.mem_cons_self _ _, by omega⟩
      · exact ⟨x, List.mem_cons_of_mem _ hx, by omega⟩

theorem insert_desc_perm (x : Nat × Nat) (l : List (Nat × Nat)) :
    List.Perm (insert_desc x l) (x :: l) := by
  induction l with
  | nil => simp [insert_desc]
  | cons y ys ih =>
    rw [insert_desc]
    by_cases h : y.2 ≤ x.2
    · simp [h]
    · simp only [h, if_false]
      exact List.Perm.trans ((ih).cons y) (List.Perm.swap x y ys)

theorem sort_votes_desc_perm (l : List (Nat × Nat)) :
    List.Perm (sort_votes_desc l) l := by
  induction l with
  | nil => simp [sort_votes_desc]
  | cons x xs ih =>
    exact List.Perm.trans (insert_desc_perm x (sort_votes_desc xs)) (ih.cons x)

theorem insert_desc_pairwise {x : Nat × Nat} {l : List (Nat × Nat)}
    (hl : l.Pairwise (fun a b => b.2 ≤ a.2)) :
    (insert_desc x l).Pairwise (fun a b => b.2 ≤ a.2) := by
  induction l with
  | nil => simp [insert_desc]
  | cons y ys ih =>
    rw [List.pairwise_cons] at hl
    rw [insert_desc]
    by_cases h : y.2 ≤ x.2
    · simp only [h, if_true]
      refine List.pairwise_cons.mpr ⟨?_, List.pairwise_cons.mpr hl⟩
      intro b hb
      rcases List.mem_cons.mp hb with hb | hb
      · subst hb; exact h
      · exact le_trans (hl.1 b hb) h
    · simp only [h, if_false]
      refine List.pairwise_cons.mpr ⟨?_, ih hl.2⟩
      intro b hb
      have hb' := (insert_desc_perm x ys).mem_iff.mp hb
      rcases List.mem_cons.mp hb' with hb' | hb'
      · subst hb'; omega
      · exact hl.1 b hb'

theorem sort_votes_desc_pairwise (l : List (Nat × Nat)) :
    (sort_votes_desc l).Pairwise (fun a b => b.2 ≤ a.2) := by
  induction l with
  | nil => simp [sort_votes_desc]
  | cons x xs ih => exact insert_desc_pairwise ih

theorem sort_votes_desc_head_max {l : List (Nat × Nat)} {a : Nat × Nat}
    {rest : List (Nat × Nat)} (h : sort_votes_desc l = a :: rest) :
    a.2 = max_count l := by
  have hperm := sort_votes_desc_perm l
  have hmem : a ∈ l := hperm.mem_iff.mp (h ▸ List.mem_cons_self a rest)
  have h1 : a.2 ≤ max_count l := le_max_count hmem
  have hl : l ≠ [] := by
    intro hnil
    subst hnil
    simp [sort_votes_desc] at h
  obtain ⟨x, hx, hmx⟩ := exists_mem_max_count hl
  have hxs : x ∈ sort_votes_desc l := hperm.mem_iff.mpr hx
  rw [h] at hxs
  have hpw := sort_votes_desc_pairwise l
  rw [h, List.pairwise_cons] at hpw
  rcases List.mem_cons.mp hxs with hc | hc
  · subst hc; omega
  · have := hpw.1 x hc
    omega

/-- Two distinct members force a list length of at least two. -/
theorem two_le_length_of_two_mem {α : Type} [DecidableEq α] {l : List α} {a b : α}
    (ha : a ∈ l) (hb : b ∈ l) (hab : a ≠ b) : 2 ≤ l.length := by
  have hb' : b ∈ l.erase a := List.mem_erase_of_ne (Ne.symm hab) |>.mpr hb
  have h1 : 1 ≤ (l.erase a).length := List.length_pos.mpr (List.ne_nil_of_mem hb')
  have h2 : (l.erase a).length = l.length - 1 := List.length_erase_of_mem ha
  have h3 : 1 ≤ l.length := List.length_pos.mpr (List.ne_nil_of_mem ha)
  omega

/-- `kill_in_list` leaves every player with a different id untouched. -/
theorem mem_kill_in_list_of_ne {ps : List Player} {q : Player} {t : Nat}
    {reason : String} (hq : q ∈ ps) (hne : q.player_id ≠ t) :
    q ∈ kill_in_list ps t reason := by
  induction ps with
  | nil => cases hq
  | cons p rest ih =>
    rw [kill_in_list]
    rcases List.mem_cons.mp hq with h | h
    · subst h
      rw [if_neg hne]
      exact List.mem_cons_self _ _
    · by_cases hp : p.player_id = t
      · rw [if_pos hp]
        exact List.mem_cons_of_mem _ h
      · rw [if_neg hp]
        exact List.mem_cons_of_mem _ (ih h)

/-- C4: Authoritative day-vote tie rule.  When the top tally is shared by
two or more targets nobody is exiled and the player list is unchanged;
when one target has strictly the most votes exactly that target is exiled
(every other player's record is untouched).  The two concrete instances
of the spec — counts A:2 B:2 C:1 exile nobody, counts A:3 B:1 exile A —
are included. -/
theorem claim4_day_vote_tie_rule (vm : List (Nat × Nat)) (st : GameState)
    (vr : List (Nat × String)) :
    (2 ≤ (tally_votes vm).countP (fun x => x.2 = max_count (tally_votes vm)) →
      day_vote_resolve vm = none ∧ (day_vote_apply st vm vr).players = st.players) ∧
    (∀ t, (t, max_count (tally_votes vm)) ∈ tally_votes vm →
      (tally_votes vm).countP (fun x => x.2 = max_count (tally_votes vm)) = 1 →
      day_vote_resolve vm = some t ∧
      (day_vote_apply st vm vr).players = kill_in_list st.players t "VOTE" ∧
      ∀ q ∈ st.players, q.player_id ≠ t → q ∈ (day_vote_apply st vm vr).players) ∧
    day_vote_resolve [(10, 1), (11, 1), (12, 2), (13, 2), (14, 3)] = none ∧
    day_vote_resolve [(10, 1), (11, 1), (12, 1), (13, 2)] = some 1 := by
  have hcountP : ∀ l : List (Nat × Nat),
      l.countP (fun x => x.2 = max_count l) =
      (sort_votes_desc l).countP (fun x => x.2 = max_count l) := by
    intro l
    exact ((sort_votes_desc_perm l).countP_eq _).symm
  refine ⟨?_, ?_, by decide, by decide⟩
  · intro h2
    have hres : day_vote_resolve vm = none := by
      rw [hcountP] at h2
      unfold day_vote_resolve day_vote_outcome
      cases hs : sort_votes_desc (tally_votes vm) with
      | nil => rfl
      | cons a rest =>
        cases rest with
        | nil =>
          rw [hs] at h2
          have : (List.countP (fun x => decide (x.2 = max_count (tally_votes vm))) [a]) ≤ 1 := by
            simp [List.countP_cons]
            split <;> omega
          omega
        | cons b t2 =>
          have hamax : a.2 = max_count (tally_votes vm) := sort_votes_desc_head_max hs
          by_cases hb : b.2 = a.2
          · simp [hb]
          · exfalso
            rw [hs] at h2
            have hpw := sort_votes_desc_pairwise (tally_votes vm)
            rw [hs] at hpw
            rw [List.pairwise_cons] at hpw
            have hb2 : b.2 ≤ a.2 := hpw.1 b (List.mem_cons_self _ _)
            have hpw2 := hpw.2
            rw [List.pairwise_cons] at hpw2
            have hcount0 : t2.countP (fun x => x.2 = max_count (tally_votes vm)) = 0 := by
              rw [List.countP_eq_zero]
              intro x hx
              have hxb : x.2 ≤ b.2 := hpw2.1 x hx
              simp only [decide_eq_true_eq]
              omega
            rw [List.countP_cons, List.countP_cons, hcount0] at h2
            simp only [decide_eq_true_eq, hamax] at h2
            have hbne : ¬ (b.2 = max_count (tally_votes vm)) := by omega
            simp [hbne] at h2
    refine ⟨hres, ?_⟩
    unfold day_vote_apply
    rw [hres]
    rfl
  · intro t hmem h1
    have hres : day_vote_resolve vm = some t := by
      rw [hcountP] at h1
      unfold day_vote_resolve day_vote_outcome
      cases hs : sort_votes_desc (tally_votes vm) with
      | nil =>
        exfalso
        have := (sort_votes_desc_perm (tally_votes vm)).mem_iff.mpr hmem
        rw [hs] at this
        cases this
      | cons a rest =>
        have hamax : a.2 = max_count (tally_votes vm) := sort_votes_desc_head_max hs
        have hts : (t, max_count (tally_votes vm)) ∈ sort_votes_desc (tally_votes vm) :=
          (sort_votes_desc_perm (tally_votes vm)).mem_iff.mpr hmem
        have hat : a = (t, max_count (tally_votes vm)) := by
          by_contra hne
          have h2 : 2 ≤ (sort_votes_desc (tally_votes vm)).countP
              (fun x => x.2 = max_count (tally_votes vm)) := by
            have hfil : a ∈ (sort_votes_desc (tally_votes vm)).filter
                (fun x => x.2 = max_count (tally_votes vm)) := by
              rw [List.mem_filter]
              exact ⟨hs ▸ List.mem_cons_self a rest, by simp [hamax]⟩
            have htfil : (t, max_count (tally_votes vm)) ∈
                (sort_votes_desc (tally_votes vm)).filter
                (fun x => x.2 = max_count (tally_votes vm)) := by
              rw [List.mem_filter]
              exact ⟨hts, by simp⟩
            rw [List.countP_eq_length_filter]
            exact two_le_length_of_two_mem hfil htfil hne
          omega
        cases rest with
        | nil => simp [hat]
        | cons b t2 =>
          have hbne : ¬ (b.2 = a.2) := by
            intro hb
            have h2 : 2 ≤ (sort_votes_desc (tally_votes vm)).countP
                (fun x => x.2 = max_count (tally_votes vm)) := by
              rw [hs, List.countP_cons, List.countP_cons]
              simp only [decide_eq_true_eq, hamax, if_true, hb]
              omega
            omega
          rw [hat]
          have : ¬ b.2 = max_count (tally_votes vm) := by rw [← hamax]; exact hbne
          simp [this]
    refine ⟨hres, ?_, ?_⟩
    · unfold day_vote_apply
      rw [hres]
      rfl
    · intro q hq hqt
      unfold day_vote_apply
      rw [hres]
      show q ∈ kill_in_list _ t "VOTE"
      exact mem_kill_in_list_of_ne hq hqt

/-- Witness for C4 at the spec's concrete instance (counts A:3, B:1):
target 1 is exiled and the exile kills exactly that target. -/
theorem claim4_witness :
    day_vote_resolve [(10, 1), (11, 1), (12, 1), (13, 2)] = some 1 ∧
    (day_vote_apply oneVillagerState [(10, 1), (11, 1), (12, 1), (13, 2)] []).players =
      kill_in_list oneVillagerState.players 1 "VOTE" :=
  ⟨((claim4_day_vote_tie_rule [(10, 1), (11, 1), (12, 1), (13, 2)] oneVillagerState []).2.1
      1 (by decide) (by decide)).1,
   ((claim4_day_vote_tie_rule [(10, 1), (11, 1), (12, 1), (13, 2)] oneVillagerState []).2.1
      1 (by decide) (by decide)).2.1⟩

/-! ### Phase/action matching (C3) -/

/-- The action type legal in each phase (spec section 4.1): Kill at
NightWolf, Check at NightSeer, Save/Poison/Pass at NightWitch, Speak at
DayDiscuss, Vote at DayVote; nothing at GameOver. -/
def phase_matches (phase : Phase) (t : ActionType) : Bool :=
  match phase, t with
  | Phase.NIGHT_WOLF, ActionType.KILL => true
  | Phase.NIGHT_SEER, ActionType.CHECK => true
  | Phase.NIGHT_WITCH, ActionType.SAVE => true
  | Phase.NIGHT_WITCH, ActionType.POISON => true
  | Phase.NIGHT_WITCH, ActionType.PASS => true
  | Phase.DAY_DISCUSS, ActionType.SPEAK => true
  | Phase.DAY_VOTE, ActionType.VOTE => true
  | _, _ => false

/-- A NightWitch state with a pending kill, for the C3 counterexample. -/
def witchPendingState : GameState :=
  { players := [
      { player_id := 0, role := Role.WOLF }, { player_id := 1, role := Role.VILLAGER },
      { player_id := 2, role := Role.VILLAGER }, { player_id := 3, role := Role.VILLAGER }],
    day := 1, phase := Phase.NIGHT_WITCH, pending_kill := some 1,
    config := { player_count := 4, roles := [(Role.WOLF, 1), (Role.VILLAGER, 3)] } }

/-- A phase-mismatched action (a Kill during NightWitch). -/
def mismatchedKill : Action :=
  { action_type := ActionType.KILL, actor_id := 0, target_id := some 2 }

/-- Counterexample to C3 as stated: a Kill action applied during
NightWitch is not a no-op — night resolution still runs, the pending-kill
victim dies and the phase advances to DayDiscuss. -/
theorem claim3_counterexample :
    witchPendingState.phase ≠ Phase.GAME_OVER ∧
    phase_matches witchPendingState.phase mismatchedKill.action_type = false ∧
    apply_action witchPendingState mismatchedKill none ≠ some witchPendingState ∧
    (apply_action witchPendingState mismatchedKill none).map
      (fun s => (s.phase, s.pending_kill, (get_player s 1).map Player.alive)) =
      some (Phase.DAY_DISCUSS, none, some false) := by
  refine ⟨by decide, by decide, by decide, by decide⟩

/-- C3 (amended): a phase-mismatched action is a silent no-op in every
non-terminal phase except NightWitch; in NightWitch the mismatched action
itself is ignored but `apply_action` still runs the night resolution
(`resolve_night`), so the pending kill is applied and the phase
advances. -/
theorem claim3_mismatch_noop_except_witch (s : GameState) (a : Action)
    (rec : Option Recommendation)
    (hph : s.phase ≠ Phase.GAME_OVER)
    (hmis : phase_matches s.phase a.action_type = false) :
    apply_action s a rec =
      some (if s.phase = Phase.NIGHT_WITCH then resolve_night s else s) := by
  cases hp : s.phase <;> cases ht : a.action_type <;>
    simp_all [phase_matches, apply_action]

/-- A NightWolf state for the C3 witness. -/
def nightWolfState : GameState :=
  { players := [
      { player_id := 0, role := Role.WOLF }, { player_id := 1, role := Role.VILLAGER }],
    day := 1, phase := Phase.NIGHT_WOLF,
    config := { player_count := 2, roles := [(Role.WOLF, 1), (Role.VILLAGER, 1)] } }

/-- A phase-mismatched action for the witness (a Vote during NightWolf). -/
def mismatchedVote : Action :=
  { action_type := ActionType.VOTE, actor_id := 1, target_id := some 0 }

/-- Witness for C3: a Vote during NightWolf leaves the state unchanged. -/
theorem claim3_witness :
    apply_action nightWolfState mismatchedVote none =
      some (if nightWolfState.phase = Phase.NIGHT_WITCH then resolve_night nightWolfState
        else nightWolfState) :=
  claim3_mismatch_noop_except_witch nightWolfState mismatchedVote none
    (by decide) (by decide)

/-! ### Night resolution (C7) -/

theorem record_event_players (s : GameState) (d : String) (ai ti : Option Nat)
    (rec : Option Recommendation) (st : Option Statement)
    (v : Option (List (Nat × Nat))) (vr : Option (List (Nat × String))) :
    (record_event s d ai ti rec st v vr).players = s.players := rfl

theorem record_event_pending (s : GameState) (d : String) (ai ti : Option Nat)
    (rec : Option Recommendation) (st : Option Statement)
    (v : Option (List (Nat × Nat))) (vr : Option (List (Nat × String))) :
    (record_event s d ai ti rec st v vr).pending_kill = s.pending_kill := rfl

/-- `kill_in_list` updates the first entry carrying the target id. -/
theorem kill_in_list_find_eq {ps : List Player} {pk : Nat} {q : Player}
    (reason : String) (h : ps.find? (fun p => p.player_id = pk) = some q) :
    (kill_in_list ps pk reason).find? (fun p => p.player_id = pk) =
      some { q with alive := false, death_reason := some reason } := by
  induction ps with
  | nil => simp [List.find?] at h
  | cons p rest ih =>
    by_cases hp : p.player_id = pk
    · rw [List.find?_cons_of_pos _ (by simp [hp])] at h
      cases h
      rw [kill_in_list, if_pos hp]
      exact List.find?_cons_of_pos _ (by simp [hp])
    · rw [List.find?_cons_of_neg _ (by simp [hp])] at h
      rw [kill_in_list, if_neg hp]
      rw [List.find?_cons_of_neg _ (by simp [hp])]
      exact ih h

/-- `kill_in_list` with a different target does not change what `find?`
sees for an id. -/
theorem kill_in_list_find_ne {ps : List Player} {pk tgt : Nat}
    (reason : String) (hne : pk ≠ tgt) :
    (kill_in_list ps tgt reason).find? (fun p => p.player_id = pk) =
      ps.find? (fun p => p.player_id = pk) := by
  induction ps with
  | nil => rfl
  | cons p rest ih =>
    by_cases hp : p.player_id = tgt
    · rw [kill_in_list, if_pos hp]
      have hppk : ¬ (p.player_id = pk) := by rw [hp]; exact fun h => hne h.symm
      rw [List.find?_cons_of_neg _ (by simp [hppk]),
        List.find?_cons_of_neg _ (by simp [hppk])]
    · rw [kill_in_list, if_neg hp]
      by_cases hppk : p.player_id = pk
      · rw [List.find?_cons_of_pos _ (by simp [hppk]),
          List.find?_cons_of_pos _ (by simp [hppk])]
      · rw [List.find?_cons_of_neg _ (by simp [hppk]),
          List.find?_cons_of_neg _ (by simp [hppk])]
        exact ih

/-- What `resolve_night` guarantees: the pending kill is always cleared,
and when a pending kill on an existing player survives to resolution that
player's record is marked dead with cause `"WOLF"`. -/
theorem resolve_night_spec (s : GameState) :
    (resolve_night s).pending_kill = none ∧
    (∀ pk q, s.pending_kill = some pk →
      s.players.find? (fun p => p.player_id = pk) = some q →
      (resolve_night s).players.find? (fun p => p.player_id = pk) =
        some { q with alive := false, death_reason := some "WOLF" }) := by
  constructor
  · unfold resolve_night
    cases hpk : s.pending_kill with
    | none =>
      simp only
      cases hw : check_winner s with
      | none => simpa using hpk
      | some w => simpa using hpk
    | some pk =>
      simp only
      cases hw : check_winner (({ (record_event (kill_player s (some pk) "WOLF")
          "夜晚击杀生效" none (some pk) none none none none) with pending_kill := none })) with
      | none => rfl
      | some w => rfl
  · intro pk q hpk hq
    unfold resolve_night
    rw [hpk]
    simp only
    have hplayers : (kill_player s (some pk) "WOLF").players = kill_in_list s.players pk "WOLF" := rfl
    have hfind : (kill_in_list s.players pk "WOLF").find? (fun p => p.player_id = pk) =
        some { q with alive := false, death_reason := some "WOLF" } :=
      kill_in_list_find_eq _ hq
    cases hw : check_winner (({ (record_event (kill_player s (some pk) "WOLF")
        "夜晚击杀生效" none (some pk) none none none none) with pending_kill := none })) with
    | none => simpa using hfind
    | some w => simpa using hfind

/-- C7: Night resolution clears `pending_kill`: whenever `apply_action`
runs in the NightWitch phase with a Save, Poison or Pass action (on the
domain where Python does not raise: a Save/Poison with a target needs the
actor's `private_info` entry), the returned state has no pending kill;
and when a pending kill on an existing player was set and was not the
target of a Save, that player's record is marked dead with cause
`"WOLF"` (the WolfKill tag). -/
theorem claim7_night_clears_pending_kill (s : GameState) (a : Action)
    (rec : Option Recommendation)
    (hph : s.phase = Phase.NIGHT_WITCH)
    (hty : a.action_type = ActionType.SAVE ∨ a.action_type = ActionType.POISON ∨
      a.action_type = ActionType.PASS)
    (hpriv : a.target_id = none ∨ a.action_type = ActionType.PASS ∨
      amem s.private_info a.actor_id = true) :
    ∃ s', apply_action s a rec = some s' ∧ s'.pending_kill = none ∧
      (∀ pk q, s.pending_kill = some pk →
        ¬ (a.action_type = ActionType.SAVE ∧ a.target_id = some pk) →
        s.players.find? (fun p => p.player_id = pk) = some q →
        ∃ q', s'.players.find? (fun p => p.player_id = pk) = some q' ∧
          q'.alive = false ∧ q'.death_reason = some "WOLF") := by
  rcases hty with h | h | h
  · -- SAVE
    cases htg : a.target_id with
    | none =>
      refine ⟨resolve_night s, ?_, (resolve_night_spec s).1, ?_⟩
      · simp [apply_action, hph, h, htg]
      · intro pk q hpk _hns hq
        exact ⟨_, (resolve_night_spec s).2 pk q hpk hq, rfl, rfl⟩
    | some tgt =>
      have hmem : amem s.private_info a.actor_id = true := by
        rcases hpriv with h1 | h1 | h1
        · rw [htg] at h1; cases h1
        · rw [h] at h1; cases h1
        · exact h1
      obtain ⟨pi, hpi⟩ : ∃ pi, alookup s.private_info a.actor_id = some pi := by
        unfold amem at hmem
        exact Option.isSome_iff_exists.mp hmem
      simp [apply_action, hph, h, htg, upd_private, hpi]
      refine ⟨(resolve_night_spec _).1, ?_⟩
      intro pk q hpk hns hq
      rw [if_neg (by
        rw [record_event_pending]
        rw [hpk]
        intro hc
        exact hns (Option.some.inj hc).symm)]
      refine ⟨_, (resolve_night_spec _).2 pk q ?_ ?_, rfl, rfl⟩
      · rw [record_event_pending]; exact hpk
      · rw [record_event_players]; exact hq
  · -- POISON
    cases htg : a.target_id with
    | none =>
      refine ⟨resolve_night s, ?_, (resolve_night_spec s).1, ?_⟩
      · simp [apply_action, hph, h, htg]
      · intro pk q hpk _hns hq
        exact ⟨_, (resolve_night_spec s).2 pk q hpk hq, rfl, rfl⟩
    | some tgt =>
      have hmem : amem s.private_info a.actor_id = true := by
        rcases hpriv with h1 | h1 | h1
        · rw [htg] at h1; cases h1
        · rw [h] at h1; cases h1
        · exact h1
      obtain ⟨pi, hpi⟩ : ∃ pi, alookup s.private_info a.actor_id = some pi := by
        unfold amem at hmem
        exact Option.isSome_iff_exists.mp hmem
      simp [apply_action, hph, h, htg, upd_private, hpi]
      refine ⟨(resolve_night_spec _).1, ?_⟩
      intro pk q hpk hq
      by_cases htp : tgt = pk
      · subst htp
        have hfind := @kill_in_list_find_eq s.players tgt _ "WITCH" hq
        exact ⟨_, (resolve_night_spec _).2 tgt _ hpk hfind, rfl, rfl⟩
      · have hfind : (kill_in_list s.players tgt "WITCH").find?
            (fun p => p.player_id = pk) = some q := by
          rw [kill_in_list_find_ne "WITCH" (fun he => htp he.symm)]
          exact hq
        exact ⟨_, (resolve_night_spec _).2 pk q hpk hfind, rfl, rfl⟩
  · -- PASS
    simp [apply_action, hph, h]
    refine ⟨(resolve_night_spec _).1, ?_⟩
    intro pk q hpk hq
    refine ⟨_, (resolve_night_spec _).2 pk q ?_ ?_, rfl, rfl⟩
    · rw [record_event_pending]; exact hpk
    · rw [record_event_players]; exact hq

/-- A Pass action of the witch for the C7 witness. -/
def witchPassAction : Action :=
  { action_type := ActionType.PASS, actor_id := 3 }

/-- Witness for C7 at a concrete NightWitch state with a pending kill on
player 1: the returned state has no pending kill and player 1 is dead
with cause `"WOLF"`. -/
theorem claim7_witness :
    ∃ s', apply_action witchPendingState witchPassAction none = some s' ∧
      s'.pending_kill = none ∧
      (∀ pk q, witchPendingState.pending_kill = some pk →
        ¬ (witchPassAction.action_type = ActionType.SAVE ∧
          witchPassAction.target_id = some pk) →
        witchPendingState.players.find? (fun p => p.player_id = pk) = some q →
        ∃ q', (s'.players.find? (fun p => p.player_id = pk)) = some q' ∧
          q'.alive = false ∧ q'.death_reason = some "WOLF") :=
  claim7_night_clears_pending_kill witchPendingState witchPassAction none
    (by decide) (Or.inr (Or.inr rfl)) (Or.inr (Or.inl rfl))

/-! ### Per-player view (C10) -/

/-- C10: `get_player_view` is not role-hidden: whatever id requests the
view, `all_players_state` lists every player of the game with its true
role, alive flag and death reason. -/
theorem claim10_view_exposes_roles (s : GameState) (pid : Nat) (v : PlayerView)
    (hv : get_player_view s pid = some v) :
    v.all_players_state = s.players.map (fun p =>
      (p.player_id,
        { alive := p.alive, role := p.role, death_reason := p.death_reason })) ∧
    ∀ q ∈ s.players,
      (q.player_id,
        ({ alive := q.alive, role := q.role, death_reason := q.death_reason } :
          PlayerStateView)) ∈ v.all_players_state := by
  unfold get_player_view at hv
  cases hgp : get_player s pid with
  | none => rw [hgp] at hv; cases hv
  | some player =>
    rw [hgp] at hv
    cases hal : alookup s.private_info pid with
    | none => rw [hal] at hv; cases hv
    | some private_data =>
      rw [hal] at hv
      cases hv
      constructor
      · rfl
      · intro q hq
        exact List.mem_map_of_mem _ hq

/-- A two-player state for the C10 witness: the requester (player 1, a
villager) holds no in-game knowledge of player 0's role. -/
def viewState : GameState :=
  { players := [
      { player_id := 0, role := Role.WOLF }, { player_id := 1, role := Role.VILLAGER }],
    day := 1, phase := Phase.NIGHT_WOLF,
    config := { player_count := 2, roles := [(Role.WOLF, 1), (Role.VILLAGER, 1)] },
    private_info := [(1, {})] }

/-- Witness for C10: the villager's view lists the living wolf's true
role. -/
theorem claim10_witness :
    ∃ v, get_player_view viewState 1 = some v ∧
      (0,
        ({ alive := true, role := Role.WOLF, death_reason := none } :
          PlayerStateView)) ∈ v.all_players_state := by
  cases hv : get_player_view viewState 1 with
  | none => exact absurd hv (by decide)
  | some v =>
    exact ⟨v, rfl,
      (claim10_view_exposes_roles viewState 1 v hv).2
        { player_id := 0, role := Role.WOLF } (by decide)⟩

/-! ### Rollout cap (C8) -/

/-- C8: `FastSimulator.run` is total — it returns a faction after at most
the 20 day/night cycles of its loop (`fast_run` is by definition the
20-fuel unfolding `fast_run_aux 20`) — and whenever every win-condition
check performed within the fuel budget reports no winner, the returned
outcome is the Village faction. -/
theorem claim8_rollout_cap :
    (∀ (s : FastState) (r : Rng),
      ((fast_run s r).1 = Faction.VILLAGE ∨ (fast_run s r).1 = Faction.WOLF) ∧
      fast_run s r = fast_run_aux 20 s r) ∧
    (∀ (n : Nat) (s : FastState) (r : Rng),
      no_winner_through n s r = true → (fast_run_aux n s r).1 = Faction.VILLAGE) ∧
    (∀ (s : FastState) (r : Rng),
      no_winner_through 20 s r = true → (fast_run s r).1 = Faction.VILLAGE) := by
  have hstep : ∀ (n : Nat) (s : FastState) (r : Rng),
      no_winner_through (n + 1) s r = true →
      s.is_game_over = none ∧
      (night_phase s r).1.is_game_over = none ∧
      no_winner_through n
        (day_phase (night_phase s r).1 (night_phase s r).2).1
        (day_phase (night_phase s r).1 (night_phase s r).2).2 = true := by
    intro n s r h
    rw [no_winner_through] at h
    simp only [Bool.and_eq_true, decide_eq_true_eq] at h
    exact ⟨h.1, h.2.1, h.2.2⟩
  have hrun : ∀ (n : Nat) (s : FastState) (r : Rng),
      s.is_game_over = none → (night_phase s r).1.is_game_over = none →
      fast_run_aux (n + 1) s r =
        fast_run_aux n (day_phase (night_phase s r).1 (night_phase s r).2).1
          (day_phase (night_phase s r).1 (night_phase s r).2).2 := by
    intro n s r h1 h2
    rw [fast_run_aux, h1]
    dsimp only
    rcases hnp : night_phase s r with ⟨s1, r1⟩
    rw [hnp] at h2
    dsimp only at h2 ⊢
    rw [h2]
  have hmain : ∀ (n : Nat) (s : FastState) (r : Rng),
      no_winner_through n s r = true → (fast_run_aux n s r).1 = Faction.VILLAGE := by
    intro n
    induction n with
    | zero => intro s r _h; rfl
    | succ m ih =>
      intro s r h
      obtain ⟨h1, h2, h3⟩ := hstep m s r h
      rw [hrun m s r h1 h2]
      exact ih _ _ h3
  refine ⟨?_, hmain, ?_⟩
  · intro s r
    refine ⟨?_, rfl⟩
    cases h : (fast_run s r).1
    · exact Or.inr rfl
    · exact Or.inl rfl
  · intro s r h
    exact hmain 20 s r h

/-- A 6-player rollout state (one wolf) for the C8 witness. -/
def capFast : FastState :=
  { roles := [(0, Role.WOLF), (1, Role.VILLAGER), (2, Role.VILLAGER),
      (3, Role.VILLAGER), (4, Role.VILLAGER), (5, Role.VILLAGER)],
    alive := [0, 1, 2, 3, 4, 5],
    witch_save_used := false, witch_poison_used := false, seer_checked := [] }

/-- The all-zero draw stream. -/
def zeroRng : Rng := { gen := fun _ => 0, pos := 0 }

/-- Witness for C8: one full cycle of `capFast` under the zero stream
triggers no win-condition check, and the fuel-exhausted run returns the
Village faction. -/
theorem claim8_witness :
    no_winner_through 1 capFast zeroRng = true ∧
    (fast_run_aux 1 capFast zeroRng).1 = Faction.VILLAGE :=
  ⟨by decide, claim8_rollout_cap.2.1 1 capFast zeroRng (by decide)⟩

/-! ### Rollout day-phase tie handling (C5) -/

/-- A rollout state whose zero-stream day vote ties 2-2, for the C5
counterexample. -/
def tieFast : FastState :=
  { roles := [(0, Role.WOLF), (1, Role.VILLAGER), (2, Role.VILLAGER),
      (3, Role.VILLAGER)],
    alive := [0, 1, 2, 3],
    witch_save_used := true, witch_poison_used := true, seer_checked := [] }

/-- A stream under which `tieFast`'s day vote produces the tally
1 ↦ 2, 0 ↦ 2 (a top tie). -/
def tieRng : Rng := { gen := fun n => if n = 2 then 1 else 0, pos := 0 }

/-- Counterexample to C5 as stated: in the rollout day phase a top tie
between targets 1 and 0 (both with two votes) does not prevent a death —
player 1 is removed from the living set. -/
theorem claim5_counterexample :
    2 ≤ (day_phase_votes tieFast tieRng).1.countP
        (fun x => x.2 = max_count (day_phase_votes tieFast tieRng).1) ∧
    (day_phase tieFast tieRng).1.alive ≠ tieFast.alive ∧
    (day_phase tieFast tieRng).1.alive = [0, 2, 3] := by
  exact ⟨by decide, by decide, by decide⟩

theorem not_mem_filter_ne_self (l : List Nat) (t : Nat) :
    t ∉ l.filter (fun p => p ≠ t) := by
  intro h
  have := (List.mem_filter.mp h).2
  simp at this

/-- C5 (amended): in the rollout day phase, whenever any votes are cast
the first target of the descending stable sort — a target attaining the
maximal tally — is removed from the living set, even when several
targets tie for the top tally; no tie check is performed. -/
theorem claim5_top_tally_dies (s : FastState) (r : Rng)
    (hne : (day_phase_votes s r).1 ≠ []) :
    ((sort_votes_desc (day_phase_votes s r).1).headD (0, 0)).2 =
      max_count (day_phase_votes s r).1 ∧
    ((sort_votes_desc (day_phase_votes s r).1).headD (0, 0)).1 ∉
      (day_phase s r).1.alive := by
  rcases hdv : day_phase_votes s r with ⟨votes, r1⟩
  dsimp only
  have hne2 : votes ≠ [] := fun hv => hne (by rw [hdv]; exact hv)
  have hsne : sort_votes_desc votes ≠ [] := by
    intro hnil
    apply hne2
    have hp := sort_votes_desc_perm votes
    rw [hnil] at hp
    exact hp.nil_eq.symm
  cases hs : sort_votes_desc votes with
  | nil => exact absurd hs hsne
  | cons a rest =>
    constructor
    · simp only [hs, List.headD_cons]
      exact sort_votes_desc_head_max hs
    · simp only [hs, List.headD_cons]
      unfold day_phase
      rw [hdv]
      dsimp only
      rw [if_neg (by simp [List.isEmpty_iff, hne2])]
      rw [hs]
      dsimp only [List.headD_cons]
      by_cases hh : alookup s.roles a.1 = some Role.HUNTER
      · rw [if_pos hh]
        by_cases hc : (s.alive.filter (fun p => p ≠ a.1)).isEmpty
        · rw [if_pos hc]
          exact not_mem_filter_ne_self _ _
        · rw [if_neg hc]
          intro hmem
          have hsub : a.1 ∈ s.alive.filter (fun p => p ≠ a.1) := by
            have := List.mem_filter.mp hmem
            exact this.1
          exact not_mem_filter_ne_self s.alive a.1 hsub
      · rw [if_neg hh]
        exact not_mem_filter_ne_self _ _

/-- Witness for C5: at the concrete tie state the top-sorted target
attains the maximum tally and dies. -/
theorem claim5_witness :
    ((sort_votes_desc (day_phase_votes tieFast tieRng).1).headD (0, 0)).2 =
      max_count (day_phase_votes tieFast tieRng).1 ∧
    ((sort_votes_desc (day_phase_votes tieFast tieRng).1).headD (0, 0)).1 ∉
      (day_phase tieFast tieRng).1.alive :=
  claim5_top_tally_dies tieFast tieRng (by decide)

/-! ### Hunter resolution (C6) -/

/-- Does the event list contain a hunter-shot record by this actor
(the exclusion test of `get_unshot_dead_hunters`)? -/
def has_shot (evs : List Event) (pid : Nat) : Bool :=
  evs.any (fun e => e.description = "猎人开枪" ∧ e.actor_id = some pid)

/-- Number of hunter-shot events recorded for an actor. -/
def shot_count (s : GameState) (pid : Nat) : Nat :=
  (s.public_events.filter
    (fun e => e.description = "猎人开枪" ∧ e.actor_id = some pid)).length

/-- The id/role projection of the player list (killing never changes it). -/
def id_roles (s : GameState) : List (Nat × Role) :=
  s.players.map (fun p => (p.player_id, p.role))

/-- Number of hunters lacking a shot event: the termination measure of
the hunter-resolution loop. -/
def hunters_without_shot (s : GameState) : Nat :=
  (id_roles s).countP
    (fun pr => pr.2 = Role.HUNTER ∧ ¬ has_shot s.public_events pr.1)

theorem kill_in_list_map_id_role (ps : List Player) (t : Nat) (reason : String) :
    (kill_in_list ps t reason).map (fun p => (p.player_id, p.role)) =
      ps.map (fun p => (p.player_id, p.role)) := by
  induction ps with
  | nil => rfl
  | cons p rest ih =>
    rw [kill_in_list]
    by_cases hp : p.player_id = t
    · rw [if_pos hp]; rfl
    · rw [if_neg hp]
      simp only [List.map_cons, ih]

/-- The event `hunter_shot_step` appends. -/
def shot_event (st : GameState) (h : Player) (target : Option Nat) : Event :=
  { day := st.day, phase := st.phase, description := "猎人开枪",
    actor_id := some h.player_id, target_id := target,
    trust_scores :=
      some (st.private_info.map (fun kv => (kv.1, kv.2.trust_scores))) }

theorem hunter_shot_step_events (ch : Chooser) (st : GameState) (h : Player) :
    (hunter_shot_step ch st h).public_events = st.public_events ++
      [shot_event st h (ch st h.player_id)] := by
  unfold hunter_shot_step record_event kill_player shot_event
  cases ch st h.player_id <;> rfl

theorem hunter_shot_step_id_roles (ch : Chooser) (st : GameState) (h : Player) :
    id_roles (hunter_shot_step ch st h) = id_roles st := by
  unfold hunter_shot_step id_roles
  cases hc : ch st h.player_id with
  | none => rfl
  | some t =>
    show (kill_in_list (record_event st "猎人开枪" (some h.player_id) (some t)
        none none none none).players t "HUNTER").map (fun p => (p.player_id, p.role)) =
      st.players.map (fun p => (p.player_id, p.role))
    rw [kill_in_list_map_id_role, record_event_players]

theorem fold_id_roles (ch : Chooser) :
    ∀ (hs : List Player) (st : GameState),
      id_roles (hs.foldl (hunter_shot_step ch) st) = id_roles st := by
  intro hs
  induction hs with
  | nil => intro st; rfl
  | cons h rest ih =>
    intro st
    rw [List.foldl_cons, ih, hunter_shot_step_id_roles]

theorem fold_events_prefix (ch : Chooser) :
    ∀ (hs : List Player) (st : GameState),
      ∃ tail, (hs.foldl (hunter_shot_step ch) st).public_events =
        st.public_events ++ tail := by
  intro hs
  induction hs with
  | nil => intro st; exact ⟨[], (List.append_nil _).symm⟩
  | cons h rest ih =>
    intro st
    obtain ⟨tail, htail⟩ := ih (hunter_shot_step ch st h)
    refine ⟨shot_event st h (ch st h.player_id) :: tail, ?_⟩
    rw [List.foldl_cons, htail, hunter_shot_step_events]
    simp

theorem has_shot_append (evs tail : List Event) (pid : Nat)
    (h : has_shot evs pid = true) : has_shot (evs ++ tail) pid = true := by
  unfold has_shot at h ⊢
  rw [List.any_append, h]
  rfl

theorem fold_has_shot_of_mem (ch : Chooser) :
    ∀ (hs : List Player) (st : GameState) (h : Player), h ∈ hs →
      has_shot (hs.foldl (hunter_shot_step ch) st).public_events h.player_id = true := by
  intro hs
  induction hs with
  | nil => intro st h hmem; cases hmem
  | cons h0 rest ih =>
    intro st h hmem
    rcases List.mem_cons.mp hmem with rfl | hmem'
    · obtain ⟨tail, htail⟩ := fold_events_prefix ch rest (hunter_shot_step ch st h)
      rw [List.foldl_cons, htail]
      apply has_shot_append
      rw [hunter_shot_step_events]
      unfold has_shot
      rw [List.any_append]
      simp only [Bool.or_eq_true, List.any_eq_true]
      exact Or.inr (by simp [shot_event])
    · rw [List.foldl_cons]
      exact ih (hunter_shot_step ch st h0) h hmem'

theorem fold_has_shot_mono (ch : Chooser) (hs : List Player) (st : GameState)
    (pid : Nat) (h : has_shot st.public_events pid = true) :
    has_shot (hs.foldl (hunter_shot_step ch) st).public_events pid = true := by
  obtain ⟨tail, htail⟩ := fold_events_prefix ch hs st
  rw [htail]
  exact has_shot_append _ _ _ h

/-- Membership characterisation of `get_unshot_dead_hunters`. -/
theorem mem_get_unshot (s : GameState) (h : Player) :
    h ∈ get_unshot_dead_hunters s ↔
      h ∈ s.players ∧ h.role = Role.HUNTER ∧ h.alive = false ∧
      has_shot s.public_events h.player_id = false := by
  unfold get_unshot_dead_hunters has_shot
  simp only [List.mem_filter, Bool.and_eq_true, decide_eq_true_eq, Bool.not_eq_true,
    Bool.not_eq_true', decide_eq_false_iff_not, Bool.decide_and]
  constructor
  · intro hx
    refine ⟨hx.1.1, hx.1.2.1, ?_, ?_⟩
    · have := hx.1.2.2
      cases halive : h.alive
      · rfl
      · rw [halive] at this; simp at this
    · have := hx.2
      cases hsh : List.any s.public_events
          (fun e => decide (e.description = "猎人开枪") && decide (e.actor_id = some h.player_id))
      · rfl
      · rw [hsh] at this; simp at this
  · intro hx
    refine ⟨⟨hx.1, hx.2.1, ?_⟩, ?_⟩ <;> simp [hx.2.2.1, hx.2.2.2]

/-- Strict count decrease: a pointwise-stronger predicate with one strict
witness in the list has a strictly larger count. -/
theorem countP_lt_of_strict {α : Type} (l : List α) (p q : α → Bool)
    (hmono : ∀ x ∈ l, q x = true → p x = true)
    (x : α) (hx : x ∈ l) (hpx : p x = true) (hqx : q x = false) :
    l.countP q < l.countP p := by
  induction l with
  | nil => cases hx
  | cons y ys ih =>
    rw [List.countP_cons, List.countP_cons]
    have hmono' : ∀ a ∈ ys, q a = true → p a = true :=
      fun a ha => hmono a (List.mem_cons_of_mem _ ha)
    have hys : ys.countP q ≤ ys.countP p := by
      apply List.countP_mono_left
      intro a ha hqa
      exact hmono' a ha hqa
    rcases List.mem_cons.mp hx with rfl | hx'
    · simp only [hpx, hqx, if_true, if_false, Bool.false_eq_true]
      omega
    · have hstrict := ih hmono' hx'
      by_cases hqy : q y = true
      · have hpy := hmono y (List.mem_cons_self _ _) hqy
        simp only [hpy, hqy, if_true]
        omega
      · rw [Bool.not_eq_true] at hqy
        simp only [hqy, Bool.false_eq_true, if_false]
        by_cases hpy : p y = true <;> simp only [hpy, if_true, if_false] <;> omega

/-- Each pass over a nonempty unshot list strictly decreases the number
of hunters lacking a shot event. -/
theorem fold_measure_decreases (ch : Chooser) (st : GameState)
    (hne : get_unshot_dead_hunters st ≠ []) :
    hunters_without_shot
        ((get_unshot_dead_hunters st).foldl (hunter_shot_step ch) st) <
      hunters_without_shot st := by
  set hs := get_unshot_dead_hunters st with hhs
  obtain ⟨h0, hs', hcons⟩ : ∃ h0 hs', hs = h0 :: hs' := by
    cases hh : hs with
    | nil => exact absurd (hhs ▸ hh) hne
    | cons a b => exact ⟨a, b, rfl⟩
  have hmem0 : h0 ∈ hs := hcons ▸ List.mem_cons_self _ _
  have hspec := (mem_get_unshot st h0).mp (hhs ▸ hmem0)
  unfold hunters_without_shot
  rw [fold_id_roles]
  refine countP_lt_of_strict _ _ _ ?_ (h0.player_id, h0.role) ?_ ?_ ?_
  · intro pr _hpr hq
    simp only [Bool.and_eq_true, decide_eq_true_eq, Bool.not_eq_true',
      decide_eq_false_iff_not] at hq ⊢
    refine ⟨hq.1, ?_⟩
    intro hshot
    exact absurd (fold_has_shot_mono ch hs st pr.1 hshot) (by simp [hq.2])
  · exact List.mem_map_of_mem _ hspec.1
  · simp only [Bool.and_eq_true, decide_eq_true_eq, Bool.not_eq_true',
      decide_eq_false_iff_not]
    exact ⟨hspec.2.1, by simp [hspec.2.2.2]⟩
  · simp only [Bool.and_eq_true, Bool.not_eq_true']
    have := fold_has_shot_of_mem ch hs st h0 hmem0
    simp [this, hspec.2.1]

/-- A state with no hunter lacking a shot event has no unshot dead
hunter. -/
theorem unshot_nil_of_measure_zero (st : GameState)
    (h : hunters_without_shot st = 0) : get_unshot_dead_hunters st = [] := by
  cases hh : get_unshot_dead_hunters st with
  | nil => rfl
  | cons a rest =>
    exfalso
    have hmem : a ∈ get_unshot_dead_hunters st := hh ▸ List.mem_cons_self _ _
    have hspec := (mem_get_unshot st a).mp hmem
    have hpos : 0 < hunters_without_shot st := by
      unfold hunters_without_shot
      rw [List.countP_pos_iff]
      refine ⟨(a.player_id, a.role), List.mem_map_of_mem _ hspec.1, ?_⟩
      simp only [Bool.and_eq_true, decide_eq_true_eq, Bool.not_eq_true',
        decide_eq_false_iff_not]
      exact ⟨hspec.2.1, by simp [hspec.2.2.2]⟩
    omega

theorem resolve_hunter_shots_of_nil (fuel : Nat) (ch : Chooser) (st : GameState)
    (h : get_unshot_dead_hunters st = []) :
    resolve_hunter_shots fuel ch st = st := by
  cases fuel with
  | zero => rfl
  | succ n =>
    rw [resolve_hunter_shots]
    rw [if_pos (by simp [List.isEmpty_iff, h])]

/-- Enough fuel reaches the loop's fixed point. -/
theorem resolve_hunter_shots_fixed (ch : Chooser) :
    ∀ (fuel : Nat) (st : GameState), hunters_without_shot st ≤ fuel →
      get_unshot_dead_hunters (resolve_hunter_shots fuel ch st) = [] := by
  intro fuel
  induction fuel with
  | zero =>
    intro st hle
    have h0 : hunters_without_shot st = 0 := Nat.le_zero.mp hle
    rw [resolve_hunter_shots]
    exact unshot_nil_of_measure_zero st h0
  | succ n ih =>
    intro st hle
    rw [resolve_hunter_shots]
    by_cases hes : get_unshot_dead_hunters st = []
    · rw [if_pos (by simp [List.isEmpty_iff, hes])]
      exact hes
    · rw [if_neg (by simp [List.isEmpty_iff, hes])]
      apply ih
      have := fold_measure_decreases ch st hes
      omega

/-- Extra fuel beyond the fixed point changes nothing. -/
theorem resolve_hunter_shots_stable (ch : Chooser) :
    ∀ (fuel : Nat) (st : GameState), hunters_without_shot st ≤ fuel →
      ∀ extra, resolve_hunter_shots (fuel + extra) ch st =
        resolve_hunter_shots fuel ch st := by
  intro fuel
  induction fuel with
  | zero =>
    intro st hle extra
    have h0 : get_unshot_dead_hunters st = [] :=
      unshot_nil_of_measure_zero st (Nat.le_zero.mp hle)
    rw [resolve_hunter_shots_of_nil _ ch st h0, resolve_hunter_shots_of_nil _ ch st h0]
  | succ n ih =>
    intro st hle extra
    by_cases hes : get_unshot_dead_hunters st = []
    · rw [resolve_hunter_shots_of_nil _ ch st hes, resolve_hunter_shots_of_nil _ ch st hes]
    · have hsucc : n + 1 + extra = (n + extra) + 1 := by omega
      rw [hsucc, resolve_hunter_shots, resolve_hunter_shots]
      rw [if_neg (by simp [List.isEmpty_iff, hes]), if_neg (by simp [List.isEmpty_iff, hes])]
      apply ih
      have := fold_measure_decreases ch st hes
      omega

theorem hunters_without_shot_le_players (s : GameState) :
    hunters_without_shot s ≤ s.players.length := by
  unfold hunters_without_shot
  calc (id_roles s).countP _ ≤ (id_roles s).length := List.countP_le_length _
    _ = s.players.length := List.length_map _ _

theorem hunter_shot_step_shot_count (ch : Chooser) (st : GameState) (h : Player)
    (pid : Nat) :
    shot_count (hunter_shot_step ch st h) pid =
      shot_count st pid + (if h.player_id = pid then 1 else 0) := by
  unfold shot_count
  rw [hunter_shot_step_events ch st h, List.filter_append, List.length_append]
  congr 1
  by_cases hp : h.player_id = pid
  · subst hp; simp [shot_event]
  · simp [shot_event, hp]

theorem fold_shot_count (ch : Chooser) :
    ∀ (hs : List Player) (st : GameState) (pid : Nat),
      shot_count (hs.foldl (hunter_shot_step ch) st) pid =
        shot_count st pid + (hs.filter (fun h => h.player_id = pid)).length := by
  intro hs
  induction hs with
  | nil => intro st pid; simp
  | cons h rest ih =>
    intro st pid
    rw [List.foldl_cons, ih, hunter_shot_step_shot_count, List.filter_cons]
    by_cases hp : h.player_id = pid
    · rw [if_pos hp, if_pos (show decide (h.player_id = pid) = true by simp [hp]),
        List.length_cons]
      omega
    · rw [if_neg hp, if_neg (show ¬ decide (h.player_id = pid) = true by simp [hp])]
      omega

theorem filter_id_length_le_one {hs : List Player}
    (hnd : (hs.map Player.player_id).Nodup) (pid : Nat) :
    (hs.filter (fun h => h.player_id = pid)).length ≤ 1 := by
  induction hs with
  | nil => simp
  | cons h rest ih =>
    simp only [List.map_cons, List.nodup_cons] at hnd
    rw [List.filter_cons]
    by_cases hp : h.player_id = pid
    · have hnil : rest.filter (fun h => h.player_id = pid) = [] := by
        rw [List.filter_eq_nil_iff]
        intro x hx hxp
        simp only [decide_eq_true_eq] at hxp
        exact hnd.1 (by rw [hp, ← hxp]; exact List.mem_map_of_mem _ hx)
      simp [hp, hnil]
    · rw [if_neg (by simp [hp])]
      exact ih hnd.2

theorem unshot_ids_nodup (s : GameState)
    (hnd : (s.players.map Player.player_id).Nodup) :
    ((get_unshot_dead_hunters s).map Player.player_id).Nodup := by
  have hsub : (get_unshot_dead_hunters s).Sublist s.players :=
    (List.filter_sublist _).trans (List.filter_sublist _)
  exact hnd.sublist (hsub.map _)

theorem shot_count_eq_zero_of_no_shot (s : GameState) (pid : Nat)
    (h : has_shot s.public_events pid = false) : shot_count s pid = 0 := by
  unfold shot_count
  unfold has_shot at h
  rw [List.length_eq_zero, List.filter_eq_nil_iff]
  intro e he hp
  have := (List.any_eq_false.mp h) e he
  simp only [decide_eq_true_eq] at hp
  simp [hp.1, hp.2] at this

theorem ids_eq_of_id_roles {s t : GameState} (h : id_roles t = id_roles s) :
    t.players.map Player.player_id = s.players.map Player.player_id := by
  have h2 : (id_roles t).map Prod.fst = (id_roles s).map Prod.fst := by rw [h]
  simpa [id_roles, List.map_map, Function.comp] using h2

theorem resolve_shot_count_le_one (ch : Chooser) (pid : Nat) :
    ∀ (fuel : Nat) (st : GameState),
      (st.players.map Player.player_id).Nodup →
      shot_count st pid ≤ 1 →
      shot_count (resolve_hunter_shots fuel ch st) pid ≤ 1 := by
  intro fuel
  induction fuel with
  | zero => intro st _ hcnt; exact hcnt
  | succ n ih =>
    intro st hnd hcnt
    rw [resolve_hunter_shots]
    by_cases hes : get_unshot_dead_hunters st = []
    · rw [if_pos (by simp [List.isEmpty_iff, hes])]
      exact hcnt
    · rw [if_neg (by simp [List.isEmpty_iff, hes])]
      apply ih
      · rw [ids_eq_of_id_roles (fold_id_roles ch _ st)]
        exact hnd
      · rw [fold_shot_count]
        have hk : ((get_unshot_dead_hunters st).filter
            (fun h => h.player_id = pid)).length ≤ 1 :=
          filter_id_length_le_one (unshot_ids_nodup st hnd) pid
        cases hfe : (get_unshot_dead_hunters st).filter (fun h => h.player_id = pid) with
        | nil => simpa using hcnt
        | cons x xs =>
          have hx : x ∈ (get_unshot_dead_hunters st).filter (fun h => h.player_id = pid) :=
            hfe ▸ List.mem_cons_self _ _
          have hxm := List.mem_filter.mp hx
          have hxpid : x.player_id = pid := by simpa using hxm.2
          have hxspec := (mem_get_unshot st x).mp hxm.1
          have hzero : shot_count st pid = 0 := by
            rw [← hxpid]
            exact shot_count_eq_zero_of_no_shot st _ hxspec.2.2.2
          rw [hfe] at hk
          simp only [List.length_cons] at hk ⊢
          omega

/-- C6: Hunter resolution reaches a fixed point within a number of loop
passes bounded by the player count: with fuel equal to the player count
the loop's exit condition (no unshot dead hunter) holds, extra fuel
changes nothing, and — because every shot is recorded as a public event
and `get_unshot_dead_hunters` excludes hunters with a recorded shot —
each hunter fires at most once (its shot-event count never exceeds one),
for every chooser the external strategy may implement. -/
theorem claim6_hunter_resolution_bounded (s : GameState) (ch : Chooser)
    (hnd : (s.players.map Player.player_id).Nodup) :
    get_unshot_dead_hunters (resolve_hunter_shots s.players.length ch s) = [] ∧
    (∀ extra, resolve_hunter_shots (s.players.length + extra) ch s =
      resolve_hunter_shots s.players.length ch s) ∧
    (∀ pid, shot_count s pid ≤ 1 →
      shot_count (resolve_hunter_shots s.players.length ch s) pid ≤ 1) := by
  have hle := hunters_without_shot_le_players s
  exact ⟨resolve_hunter_shots_fixed ch _ s hle,
    resolve_hunter_shots_stable ch _ s hle,
    fun pid hcnt => resolve_shot_count_le_one ch pid _ s hnd hcnt⟩

/-- A chain of three hunters: 0 is dead; each shoots the next id. -/
def chainState : GameState :=
  { players := [
      { player_id := 0, role := Role.HUNTER, alive := false, death_reason := some "VOTE" },
      { player_id := 1, role := Role.HUNTER },
      { player_id := 2, role := Role.HUNTER }],
    day := 1, phase := Phase.DAY_VOTE,
    config := { player_count := 3, roles := [(Role.HUNTER, 3)] } }

/-- The chain chooser: each dead hunter shoots the next id. -/
def chainShooter : Chooser := fun _ hid => some (hid + 1)

/-- Witness for C6 on the hunter chain: player-count fuel reaches the
fixed point and hunter 0's shot count stays at most one. -/
theorem claim6_witness :
    get_unshot_dead_hunters
      (resolve_hunter_shots chainState.players.length chainShooter chainState) = [] ∧
    shot_count
      (resolve_hunter_shots chainState.players.length chainShooter chainState) 0 ≤ 1 :=
  ⟨(claim6_hunter_resolution_bounded chainState chainShooter (by decide)).1,
   (claim6_hunter_resolution_bounded chainState chainShooter (by decide)).2.2 0
     (by decide)⟩

/-! ### Association-list lemmas (C2) -/

theorem alookup_aset_self {α : Type} (d : List (Nat × α)) (k : Nat) (v : α) :
    alookup (aset d k v) k = some v := by
  induction d with
  | nil => simp [aset, alookup]
  | cons kv rest ih =>
    rw [aset]
    by_cases h : kv.1 = k
    · rw [if_pos h]
      simp [alookup, h]
    · rw [if_neg h]
      simp only [alookup, h, if_false]
      exact ih

theorem alookup_aset_ne {α : Type} (d : List (Nat × α)) (k k' : Nat) (v : α)
    (h : k ≠ k') : alookup (aset d k v) k' = alookup d k' := by
  induction d with
  | nil => simp [aset, alookup, h]
  | cons kv rest ih =>
    rw [aset]
    by_cases hk : kv.1 = k
    · rw [if_pos hk]
      simp only [alookup, hk, h, if_false]
    · rw [if_neg hk]
      simp only [alookup]
      by_cases hk' : kv.1 = k'
      · rw [if_pos hk', if_pos hk']
      · rw [if_neg hk', if_neg hk']
        exact ih

theorem amem_iff_mem_keys {α : Type} (d : List (Nat × α)) (k : Nat) :
    amem d k = true ↔ k ∈ d.map Prod.fst := by
  induction d with
  | nil => simp [amem, alookup]
  | cons kv rest ih =>
    simp only [amem, alookup, List.map_cons, List.mem_cons]
    by_cases h : kv.1 = k
    · simp [h]
    · rw [if_neg h]
      rw [amem] at ih
      rw [ih]
      constructor
      · exact Or.inr
      · rintro (he | hm)
        · exact absurd he.symm h
        · exact hm

theorem aset_keys {α : Type} (d : List (Nat × α)) (k : Nat) (v : α) :
    (aset d k v).map Prod.fst =
      if amem d k then d.map Prod.fst else d.map Prod.fst ++ [k] := by
  induction d with
  | nil => simp [aset, amem, alookup]
  | cons kv rest ih =>
    rw [aset]
    by_cases h : kv.1 = k
    · rw [if_pos h]
      have : amem (kv :: rest) k = true := by
        simp [amem, alookup, h]
      rw [this]
      simp [h]
    · rw [if_neg h]
      have hm : amem (kv :: rest) k = amem rest k := by
        simp [amem, alookup, h]
      rw [hm, List.map_cons, List.map_cons, ih]
      by_cases hr : amem rest k
      · rw [if_pos hr, if_pos hr]
      · simp only [Bool.not_eq_true] at hr
        rw [hr]
        simp

theorem aset_keys_nodup {α : Type} {d : List (Nat × α)} (k : Nat) (v : α)
    (h : (d.map Prod.fst).Nodup) : ((aset d k v).map Prod.fst).Nodup := by
  rw [aset_keys]
  by_cases hm : amem d k
  · rw [if_pos hm]; exact h
  · rw [if_neg hm]
    rw [List.nodup_append]
    refine ⟨h, List.nodup_singleton k, ?_⟩
    intro x hx hk
    rw [List.mem_singleton] at hk
    subst hk
    exact hm ((amem_iff_mem_keys d x).mpr hx)

theorem aset_of_not_mem {α : Type} (d : List (Nat × α)) (k : Nat) (v : α)
    (h : amem d k = false) : aset d k v = d ++ [(k, v)] := by
  induction d with
  | nil => rfl
  | cons kv rest ih =>
    rw [aset]
    by_cases hk : kv.1 = k
    · exfalso
      have : amem (kv :: rest) k = true := by simp [amem, alookup, hk]
      rw [this] at h
      cases h
    · rw [if_neg hk]
      have : amem rest k = false := by
        simp only [amem, alookup, hk, if_false] at h
        exact h
      rw [List.cons_append, ih this]

/-- Generic foldl invariant. -/
theorem foldl_preserve {α β : Type} (P : α → Prop) (g : α → β → α)
    (hg : ∀ a b, P a → P (g a b)) :
    ∀ (xs : List β) (a : α), P a → P (xs.foldl g a) := by
  intro xs
  induction xs with
  | nil => intro a ha; exact ha
  | cons x rest ih => intro a ha; exact ih (g a x) (hg a x ha)

theorem fixed_roles_keys_nodup (state : GameState) (actor_id : Nat) (my_role : Role) :
    ((fixed_roles_of state actor_id my_role).map Prod.fst).Nodup := by
  unfold fixed_roles_of
  dsimp only
  apply foldl_preserve ((fun d => (d.map Prod.fst).Nodup) :
    List (Nat × Role) → Prop)
  · intro a b ha
    by_cases h : ¬ b.alive
    · rw [if_pos h]; exact aset_keys_nodup _ _ ha
    · rw [if_neg h]; exact ha
  · by_cases hseer : my_role = Role.SEER
    · rw [if_pos hseer]
      cases hal : alookup state.private_info actor_id with
      | none =>
        by_cases hwolf : my_role = Role.WOLF
        all_goals {
          first
          | (rw [if_pos hwolf]
             apply foldl_preserve ((fun d => (d.map Prod.fst).Nodup) :
               List (Nat × Role) → Prop)
             · intro a b ha
               by_cases h : b.role = Role.WOLF
               · rw [if_pos h]; exact aset_keys_nodup _ _ ha
               · rw [if_neg h]; exact ha
             · exact aset_keys_nodup _ _ List.nodup_nil)
          | (rw [if_neg hwolf]
             exact aset_keys_nodup _ _ List.nodup_nil)
        }
      | some pr =>
        apply foldl_preserve ((fun d => (d.map Prod.fst).Nodup) :
          List (Nat × Role) → Prop)
        · intro a b ha
          exact aset_keys_nodup _ _ ha
        · by_cases hwolf : my_role = Role.WOLF
          · rw [if_pos hwolf]
            apply foldl_preserve ((fun d => (d.map Prod.fst).Nodup) :
              List (Nat × Role) → Prop)
            · intro a b ha
              by_cases h : b.role = Role.WOLF
              · rw [if_pos h]; exact aset_keys_nodup _ _ ha
              · rw [if_neg h]; exact ha
            · exact aset_keys_nodup _ _ List.nodup_nil
          · rw [if_neg hwolf]
            exact aset_keys_nodup _ _ List.nodup_nil
    · rw [if_neg hseer]
      by_cases hwolf : my_role = Role.WOLF
      · rw [if_pos hwolf]
        apply foldl_preserve ((fun d => (d.map Prod.fst).Nodup) :
          List (Nat × Role) → Prop)
        · intro a b ha
          by_cases h : b.role = Role.WOLF
          · rw [if_pos h]; exact aset_keys_nodup _ _ ha
          · rw [if_neg h]; exact ha
        · exact aset_keys_nodup _ _ List.nodup_nil
      · rw [if_neg hwolf]
        exact aset_keys_nodup _ _ List.nodup_nil

/-! ### Residual-pool lemmas (C2) -/

/-- All removals of the pool construction succeed: every fixed role is
present in the pool at its turn.  (When a removal falls through — the
source's silent `elif ... pass` — conservation can fail, as the
counterexample shows.) -/
def removals_clean : List Role → List (Nat × Role) → Bool
  | _, [] => true
  | pool, kv :: rest => kv.2 ∈ pool && removals_clean (pool.erase kv.2) rest

theorem residual_fold_perm :
    ∀ (fixed : List (Nat × Role)) (pool : List Role),
      removals_clean pool fixed = true →
      List.Perm
        ((fixed.foldl (fun pool kv => pool_remove pool kv.2) pool) ++
          fixed.map Prod.snd) pool := by
  intro fixed
  induction fixed with
  | nil => intro pool _; simp
  | cons kv rest ih =>
    intro pool hc
    rw [removals_clean] at hc
    simp only [Bool.and_eq_true, decide_eq_true_eq] at hc
    obtain ⟨hmem, hrest⟩ := hc
    rw [List.foldl_cons]
    have hrm : pool_remove pool kv.2 = pool.erase kv.2 := by
      unfold pool_remove
      rw [if_pos hmem]
    rw [hrm, List.map_cons]
    have h1 : List.Perm
        ((rest.foldl (fun pool kv => pool_remove pool kv.2) (pool.erase kv.2)) ++
          kv.2 :: rest.map Prod.snd)
        (kv.2 :: ((rest.foldl (fun pool kv => pool_remove pool kv.2) (pool.erase kv.2)) ++
          rest.map Prod.snd)) := List.perm_middle
    have h2 := (ih (pool.erase kv.2) hrest).cons kv.2
    have h3 : List.Perm pool (kv.2 :: pool.erase kv.2) := List.perm_cons_erase hmem
    exact h1.trans (h2.trans h3.symm)

theorem residual_fold_length (fixed : List (Nat × Role)) (pool : List Role)
    (hc : removals_clean pool fixed = true) :
    (fixed.foldl (fun pool kv => pool_remove pool kv.2) pool).length + fixed.length =
      pool.length := by
  have := (residual_fold_perm fixed pool hc).length_eq
  rw [List.length_append, List.length_map] at this
  exact this

/-! ### Shuffle permutation lemmas (C2) -/

theorem get?_set_ne {α : Type} :
    ∀ (xs : List α) (i j : Nat) (b : α), i ≠ j →
      (xs.set i b).get? j = xs.get? j := by
  intro xs
  induction xs with
  | nil => intro i j b _; simp
  | cons x tl ih =>
    intro i j b hne
    cases i with
    | zero =>
      cases j with
      | zero => exact absurd rfl hne
      | succ m => simp [List.set]
    | succ n =>
      cases j with
      | zero => simp [List.set]
      | succ m =>
        simp only [List.set, List.get?]
        exact ih n m b (fun h => hne (by rw [h]))

theorem get?_set_self {α : Type} :
    ∀ (xs : List α) (j : Nat) (b : α), j < xs.length →
      (xs.set j b).get? j = some b := by
  intro xs
  induction xs with
  | nil => intro j b h; simp at h
  | cons x tl ih =>
    intro j b h
    cases j with
    | zero => simp [List.set]
    | succ m =>
      simp only [List.set, List.get?]
      exact ih m b (by simpa using h)

theorem count_set_eq {α : Type} [DecidableEq α] :
    ∀ (xs : List α) (n : Nat) (d b c : α), xs.get? n = some d →
      (xs.set n b).count c + (if d = c then 1 else 0) =
        xs.count c + (if b = c then 1 else 0) := by
  intro xs
  induction xs with
  | nil => intro n d b c h; simp [List.get?] at h
  | cons x tl ih =>
    intro n d b c h
    cases n with
    | zero =>
      simp only [List.get?] at h
      cases h
      simp only [List.set, List.count_cons]
      by_cases hx : x = c <;> by_cases hb : b = c
      · simp [hx, hb]
      · simp [hx, hb]
      · simp [hx, hb]
      · simp [hx, hb]
    | succ m =>
      simp only [List.get?] at h
      simp only [List.set, List.count_cons]
      have := ih m d b c h
      by_cases hx : x = c <;> simp [hx] <;> omega

theorem list_swap_count {α : Type} [DecidableEq α] (xs : List α) (i j : Nat)
    (c : α) : (list_swap xs i j).count c = xs.count c := by
  unfold list_swap
  cases hi : xs.get? i with
  | none => rfl
  | some a =>
    cases hj : xs.get? j with
    | none => rfl
    | some b =>
      have hjlen : j < xs.length := by
        by_contra hge
        rw [List.get?_eq_none.mpr (Nat.le_of_not_lt hge)] at hj
        cases hj
      have hd : (xs.set i b).get? j = some b := by
        by_cases hij : i = j
        · subst hij
          exact get?_set_self xs i b hjlen
        · rw [get?_set_ne xs i j b hij]
          exact hj
      have h1 := count_set_eq (xs.set i b) j b a c hd
      have h2 := count_set_eq xs i a b c hi
      by_cases hb : b = c <;> by_cases ha : a = c <;>
        simp only [hb, ha, if_true, if_false] at h1 h2 ⊢ <;> omega

theorem list_swap_perm {α : Type} [DecidableEq α] (xs : List α) (i j : Nat) :
    List.Perm (list_swap xs i j) xs :=
  List.perm_iff_count.mpr (fun c => list_swap_count xs i j c)

theorem shuffle_go_perm {α : Type} [DecidableEq α] :
    ∀ (n : Nat) (xs : List α) (r : Rng),
      List.Perm (shuffle_go n xs r).1 xs := by
  intro n
  induction n with
  | zero => intro xs r; exact List.Perm.refl xs
  | succ m ih =>
    intro xs r
    rw [shuffle_go]
    exact (ih _ _).trans (list_swap_perm xs (m + 1) (r.gen r.pos % (m + 2)))

theorem shuffle_perm {α : Type} [DecidableEq α] (xs : List α) (r : Rng) :
    List.Perm (shuffle xs r).1 xs := by
  unfold shuffle
  cases h : xs.length with
  | zero => exact List.Perm.refl xs
  | succ n => exact shuffle_go_perm n xs r

/-! ### Assignment-attempt lemmas (C2) -/

theorem pop_first_good_perm :
    ∀ (l : List Role) (x : Role) (rest : List Role),
      pop_first_good l = some (x, rest) → List.Perm l (x :: rest) := by
  intro l
  induction l with
  | nil => intro x rest h; cases h
  | cons y ys ih =>
    intro x rest h
    rw [pop_first_good] at h
    by_cases hy : y ≠ Role.WOLF
    · rw [if_pos hy] at h
      cases h
      exact List.Perm.refl _
    · rw [if_neg hy] at h
      cases hrec : pop_first_good ys with
      | none => rw [hrec] at h; cases h
      | some pr =>
        obtain ⟨z, zs⟩ := pr
        rw [hrec] at h
        cases h
        exact ((ih x zs hrec).cons y).trans (List.Perm.swap x y zs)

theorem foldl_none_must {β : Type} (f : Option (List (Nat × Role) × List Role) →
      β → Option (List (Nat × Role) × List Role))
    (hf : ∀ b, f none b = none) :
    ∀ (xs : List β), xs.foldl f none = none := by
  intro xs
  induction xs with
  | nil => rfl
  | cons x rest ih => rw [List.foldl_cons, hf]; exact ih

theorem must_fold_spec :
    ∀ (must : List Nat) (asg : List (Nat × Role)) (pool : List Role)
      (out : List (Nat × Role) × List Role),
      must.foldl
        (fun acc mg =>
          match acc with
          | none => none
          | some (assignment, temp_pool) =>
              match pop_first_good temp_pool with
              | none => none
              | some (role, rest) => some (aset assignment mg role, rest))
        (some (asg, pool)) = some out →
      (∀ k ∈ asg.map Prod.fst, k ∉ must) →
      must.Nodup →
      out.1.map Prod.fst = asg.map Prod.fst ++ must ∧
      List.Perm (out.1.map Prod.snd ++ out.2) (asg.map Prod.snd ++ pool) ∧
      out.2.length + must.length = pool.length := by
  intro must
  induction must with
  | nil =>
    intro asg pool out h _ _
    cases h
    exact ⟨by simp, List.Perm.refl _, by simp⟩
  | cons mg rest ih =>
    intro asg pool out h hfresh hnd
    rw [List.foldl_cons] at h
    dsimp only at h
    cases hpop : pop_first_good pool with
    | none =>
      rw [hpop] at h
      rw [foldl_none_must _ (fun _ => rfl)] at h
      cases h
    | some pr =>
      obtain ⟨role, restp⟩ := pr
      rw [hpop] at h
      dsimp only at h
      have hmgfresh : amem asg mg = false := by
        cases hmem : amem asg mg
        · rfl
        · exfalso
          exact hfresh mg ((amem_iff_mem_keys asg mg).mp hmem)
            (List.mem_cons_self _ _)
      have haset : aset asg mg role = asg ++ [(mg, role)] :=
        aset_of_not_mem asg mg role hmgfresh
      rw [List.nodup_cons] at hnd
      have hfresh' : ∀ k ∈ (aset asg mg role).map Prod.fst, k ∉ rest := by
        intro k hk
        rw [haset] at hk
        simp only [List.map_append, List.mem_append] at hk
        rcases hk with hk | hk
        · intro hkr
          exact hfresh k hk (List.mem_cons_of_mem _ hkr)
        · simp only [List.map_cons, List.map_nil, List.mem_singleton] at hk
          subst hk
          exact hnd.1
      obtain ⟨hkeys, hperm, hlen⟩ := ih (aset asg mg role) restp out h hfresh' hnd.2
      have hpoplen : restp.length + 1 = pool.length :=
        by simpa using (pop_first_good_perm pool role restp hpop).length_eq.symm
      refine ⟨?_, ?_, ?_⟩
      · rw [hkeys, haset]
        simp [List.append_assoc]
      · have hpoolperm : List.Perm (asg.map Prod.snd ++ pool)
            (asg.map Prod.snd ++ (role :: restp)) :=
          List.Perm.append_left _ (pop_first_good_perm pool role restp hpop)
        have hmid : (aset asg mg role).map Prod.snd ++ restp =
            asg.map Prod.snd ++ (role :: restp) := by
          rw [haset]
          simp [List.append_assoc]
        exact hperm.trans (by rw [hmid]; exact hpoolperm.symm)
      · simp only [List.length_cons] at hlen ⊢
        omega

theorem others_fold_spec :
    ∀ (others : List Nat) (asg : List (Nat × Role)) (pool : List Role)
      (out : List (Nat × Role) × List Role),
      others.foldl
        (fun acc o =>
          match acc with
          | none => none
          | some (assignment, temp_pool) =>
              match temp_pool with
              | [] => none
              | role :: rest => some (aset assignment o role, rest))
        (some (asg, pool)) = some out →
      (∀ k ∈ asg.map Prod.fst, k ∉ others) →
      others.Nodup →
      out.1.map Prod.fst = asg.map Prod.fst ++ others ∧
      out.1.map Prod.snd ++ out.2 = asg.map Prod.snd ++ pool ∧
      out.2.length + others.length = pool.length := by
  intro others
  induction others with
  | nil =>
    intro asg pool out h _ _
    cases h
    exact ⟨by simp, by simp, by simp⟩
  | cons o rest ih =>
    intro asg pool out h hfresh hnd
    rw [List.foldl_cons] at h
    dsimp only at h
    cases pool with
    | nil =>
      rw [show ((match ([] : List Role) with
          | [] => (none : Option (List (Nat × Role) × List Role))
          | role :: rest => some (aset asg o role, rest))) = none from rfl] at h
      rw [foldl_none_must _ (fun _ => rfl)] at h
      cases h
    | cons role restp =>
      dsimp only at h
      have hofresh : amem asg o = false := by
        cases hmem : amem asg o
        · rfl
        · exact absurd (List.mem_cons_self _ _)
            (hfresh o ((amem_iff_mem_keys asg o).mp hmem))
      have haset : aset asg o role = asg ++ [(o, role)] :=
        aset_of_not_mem asg o role hofresh
      rw [List.nodup_cons] at hnd
      have hfresh' : ∀ k ∈ (aset asg o role).map Prod.fst, k ∉ rest := by
        intro k hk
        rw [haset] at hk
        simp only [List.map_append, List.mem_append] at hk
        rcases hk with hk | hk
        · intro hkr
          exact hfresh k hk (List.mem_cons_of_mem _ hkr)
        · simp only [List.map_cons, List.map_nil, List.mem_singleton] at hk
          subst hk
          exact hnd.1
      obtain ⟨hkeys, heq, hlen⟩ := ih (aset asg o role) restp out h hfresh' hnd.2
      refine ⟨?_, ?_, ?_⟩
      · rw [hkeys, haset]
        simp [List.append_assoc]
      · rw [heq, haset]
        simp [List.append_assoc]
      · simp only [List.length_cons] at hlen ⊢
        omega

theorem one_attempt_spec (cp : List Role) (must others : List Nat)
    (hlen : cp.length = must.length + others.length)
    (hnd : (must ++ others).Nodup) (asg : List (Nat × Role))
    (h : one_attempt cp must others = AttemptResult.ok asg) :
    asg.map Prod.fst = must ++ others ∧
    List.Perm (asg.map Prod.snd) cp := by
  unfold one_attempt at h
  rw [List.nodup_append] at hnd
  cases hc : must.foldl
      (fun acc mg =>
        match acc with
        | none => none
        | some (assignment, temp_pool) =>
            match pop_first_good temp_pool with
            | none => none
            | some (role, rest) => some (aset assignment mg role, rest))
      (some ([], cp)) with
  | none =>
    rw [hc] at h
    cases h
  | some out1 =>
    obtain ⟨a1, p1⟩ := out1
    rw [hc] at h
    dsimp only at h
    obtain ⟨hkeys1, hperm1, hlen1⟩ :=
      must_fold_spec must [] cp (a1, p1) hc (by simp) hnd.1
    cases hr : others.foldl
        (fun acc o =>
          match acc with
          | none => none
          | some (assignment, temp_pool) =>
              match temp_pool with
              | [] => none
              | role :: rest => some (aset assignment o role, rest))
        (some (a1, p1)) with
    | none =>
      rw [hr] at h
      cases h
    | some out2 =>
      obtain ⟨a2, p2⟩ := out2
      rw [hr] at h
      dsimp only at h
      cases h
      have hfresh1 : ∀ k ∈ a1.map Prod.fst, k ∉ others := by
        intro k hk
        rw [show a1.map Prod.fst = ((a1, p1) : List (Nat × Role) × List Role).1.map
          Prod.fst from rfl, hkeys1] at hk
        simp only [List.map_nil, List.nil_append] at hk
        exact fun hko => hnd.2.2 hk hko
      obtain ⟨hkeys2, heq2, hlen2⟩ :=
        others_fold_spec others a1 p1 (asg, p2) hr hfresh1 hnd.2.1
      dsimp only at hkeys1 hperm1 hlen1 hkeys2 heq2 hlen2
      simp only [List.map_nil, List.nil_append] at hkeys1 hperm1
      have hp2nil : p2 = [] := by
        have hl := hperm1.length_eq
        simp only [List.length_append, List.length_map] at hl hlen1 hlen2
        rw [← List.length_eq_zero]
        omega
      constructor
      · rw [hkeys2, hkeys1]
      · have hv : asg.map Prod.snd = a1.map Prod.snd ++ p1 := by
          rw [hp2nil, List.append_nil] at heq2
          exact heq2
        rw [hv]
        exact hperm1

theorem attempts_ok_spec :
    ∀ (n : Nat) (cp : List Role) (must others : List Nat) (r : Rng)
      (asg : List (Nat × Role)) (cp2 : List Role) (r2 : Rng),
      attempts_loop n cp must others r = some (some asg, cp2, r2) →
      cp.length = must.length + others.length →
      (must ++ others).Nodup →
      asg.map Prod.fst = must ++ others ∧
      List.Perm (asg.map Prod.snd) cp := by
  intro n
  induction n with
  | zero =>
    intro cp must others r asg cp2 r2 h _ _
    rw [attempts_loop] at h
    simp at h
  | succ m ih =>
    intro cp must others r asg cp2 r2 h hlen hnd
    rw [attempts_loop] at h
    cases hsh : shuffle cp r with
    | mk cps rs =>
      rw [hsh] at h
      dsimp only at h
      have hperm : List.Perm cps cp := by
        have := shuffle_perm cp r
        rw [hsh] at this
        exact this
      have hlens : cps.length = must.length + others.length := by
        rw [hperm.length_eq]
        exact hlen
      cases hone : one_attempt cps must others with
      | crash =>
        rw [hone] at h
        cases h
      | ok a =>
        rw [hone] at h
        cases h
        obtain ⟨h1, h2⟩ := one_attempt_spec cp2 must others hlens hnd asg hone
        exact ⟨h1, h2.trans hperm⟩
      | failed =>
        rw [hone] at h
        obtain ⟨h1, h2⟩ := ih cps must others rs asg cp2 r2 h hlens hnd
        exact ⟨h1, h2.trans hperm⟩

theorem attempts_none_perm :
    ∀ (n : Nat) (cp : List Role) (must others : List Nat) (r : Rng)
      (cp2 : List Role) (r2 : Rng),
      attempts_loop n cp must others r = some (none, cp2, r2) →
      List.Perm cp2 cp := by
  intro n
  induction n with
  | zero =>
    intro cp must others r cp2 r2 h
    rw [attempts_loop] at h
    cases h
    exact List.Perm.refl _
  | succ m ih =>
    intro cp must others r cp2 r2 h
    rw [attempts_loop] at h
    cases hsh : shuffle cp r with
    | mk cps rs =>
      rw [hsh] at h
      dsimp only at h
      have hperm : List.Perm cps cp := by
        have := shuffle_perm cp r
        rw [hsh] at this
        exact this
      cases hone : one_attempt cps must others with
      | crash =>
        rw [hone] at h
        cases h
      | ok a =>
        rw [hone] at h
        simp at h
      | failed =>
        rw [hone] at h
        exact (ih cps must others rs cp2 r2 h).trans hperm

theorem fallback_assign_spec :
    ∀ (us : List Nat) (i : Nat) (cp : List Role) (acc out : List (Nat × Role)),
      fallback_assign us i cp acc = some out →
      (∀ k ∈ acc.map Prod.fst, k ∉ us) →
      us.Nodup →
      out.map Prod.fst = acc.map Prod.fst ++ us ∧
      out.map Prod.snd = acc.map Prod.snd ++ (cp.drop i).take us.length := by
  intro us
  induction us with
  | nil =>
    intro i cp acc out h _ _
    cases h
    exact ⟨by simp, by simp⟩
  | cons u rest ih =>
    intro i cp acc out h hfresh hnd
    rw [fallback_assign] at h
    cases hg : cp.get? i with
    | none =>
      rw [hg] at h
      cases h
    | some role =>
      rw [hg] at h
      dsimp only at h
      have hufresh : amem acc u = false := by
        cases hmem : amem acc u
        · rfl
        · exact absurd (List.mem_cons_self _ _)
            (hfresh u ((amem_iff_mem_keys acc u).mp hmem))
      have haset : aset acc u role = acc ++ [(u, role)] :=
        aset_of_not_mem acc u role hufresh
      rw [List.nodup_cons] at hnd
      have hfresh' : ∀ k ∈ (aset acc u role).map Prod.fst, k ∉ rest := by
        intro k hk
        rw [haset] at hk
        simp only [List.map_append, List.mem_append] at hk
        rcases hk with hk | hk
        · intro hkr
          exact hfresh k hk (List.mem_cons_of_mem _ hkr)
        · simp only [List.map_cons, List.map_nil, List.mem_singleton] at hk
          subst hk
          exact hnd.1
      obtain ⟨hkeys, hvals⟩ := ih (i + 1) cp (aset acc u role) out h hfresh' hnd.2
      have hilt : i < cp.length := by
        by_contra hge
        rw [List.get?_eq_none.mpr (Nat.le_of_not_lt hge)] at hg
        cases hg
      have hdrop : cp.drop i = role :: cp.drop (i + 1) := by
        rw [List.drop_eq_getElem_cons hilt]
        have : cp[i] = role := by
          have := List.get?_eq_getElem? cp i
          rw [hg, List.getElem?_eq_getElem hilt] at this
          exact (Option.some_inj.mp this.symm)
        rw [this]
      refine ⟨?_, ?_⟩
      · rw [hkeys, haset]
        simp [List.append_assoc]
      · rw [hvals, haset, hdrop]
        simp [List.append_assoc, List.take_succ_cons]

theorem sample_world_spec (fixed : List (Nat × Role)) (pool : List Role)
    (unknown kg : List Nat) (r : Rng) (world : List (Nat × Role)) (rf : Rng)
    (h : sample_world fixed pool unknown kg r = some (world, rf))
    (hlen : pool.length = unknown.length)
    (hnd : unknown.Nodup) :
    ∃ asg : List (Nat × Role), world = dict_update fixed asg ∧
      List.Perm (asg.map Prod.fst) unknown ∧
      List.Perm (asg.map Prod.snd) pool := by
  unfold sample_world at h
  cases hsh : shuffle pool r with
  | mk cp1 r1 =>
    rw [hsh] at h
    dsimp only at h
    have hperm1 : List.Perm cp1 pool := by
      have := shuffle_perm pool r
      rw [hsh] at this
      exact this
    have hmo : List.Perm
        (unknown.filter (fun uid => kg.contains uid) ++
          unknown.filter (fun uid => !kg.contains uid)) unknown :=
      List.filter_append_perm _ unknown
    have hndmo : (unknown.filter (fun uid => kg.contains uid) ++
        unknown.filter (fun uid => !kg.contains uid)).Nodup :=
      hmo.nodup_iff.mpr hnd
    have hlen1 : cp1.length =
        (unknown.filter (fun uid => kg.contains uid)).length +
          (unknown.filter (fun uid => !kg.contains uid)).length := by
      rw [hperm1.length_eq, hlen, ← hmo.length_eq, List.length_append]
    cases hal : attempts_loop 10 cp1
        (unknown.filter (fun uid => kg.contains uid))
        (unknown.filter (fun uid => !kg.contains uid)) r1 with
    | none =>
      rw [hal] at h
      cases h
    | some out =>
      obtain ⟨oasg, cp2, r2⟩ := out
      rw [hal] at h
      cases oasg with
      | some asg =>
        dsimp only at h
        cases h
        obtain ⟨h1, h2⟩ := attempts_ok_spec 10 cp1 _ _ r1 asg cp2 rf hal hlen1 hndmo
        refine ⟨asg, rfl, ?_, h2.trans hperm1⟩
        rw [h1]
        exact hmo
      | none =>
        dsimp only at h
        cases hsh2 : shuffle cp2 r2 with
        | mk cp3 r3 =>
          rw [hsh2] at h
          dsimp only at h
          have hperm3 : List.Perm cp3 cp2 := by
            have := shuffle_perm cp2 r2
            rw [hsh2] at this
            exact this
          have hperm2 : List.Perm cp2 cp1 :=
            attempts_none_perm 10 cp1 _ _ r1 cp2 r2 hal
          cases hf : fallback_assign unknown 0 cp3 [] with
          | none =>
            rw [hf] at h
            cases h
          | some asg =>
            rw [hf] at h
            dsimp only at h
            cases h
            obtain ⟨hk, hv⟩ := fallback_assign_spec unknown 0 cp3 [] asg hf
              (by simp) hnd
            simp only [List.map_nil, List.nil_append, List.drop_zero] at hk hv
            have hlen3 : cp3.length = unknown.length := by
              rw [hperm3.length_eq, hperm2.length_eq, hperm1.length_eq, hlen]
            have htake : cp3.take unknown.length = cp3 := by
              rw [← hlen3]
              exact List.take_length cp3
            refine ⟨asg, rfl, ?_, ?_⟩
            · rw [hk]
            · rw [hv, htake]
              exact hperm3.trans (hperm2.trans hperm1)

theorem dict_update_cons (d : List (Nat × Role)) (kv : Nat × Role)
    (rest : List (Nat × Role)) :
    dict_update d (kv :: rest) = dict_update (aset d kv.1 kv.2) rest := rfl

theorem alookup_dict_update_not_mem :
    ∀ (e d : List (Nat × Role)) (k : Nat), k ∉ e.map Prod.fst →
      alookup (dict_update d e) k = alookup d k := by
  intro e
  induction e with
  | nil => intro d k _; rfl
  | cons kv rest ih =>
    intro d k hk
    simp only [List.map_cons, List.mem_cons] at hk
    push_neg at hk
    rw [dict_update_cons, ih (aset d kv.1 kv.2) k hk.2]
    exact alookup_aset_ne d kv.1 k kv.2 (Ne.symm hk.1)

theorem alookup_dict_update_mem_keys :
    ∀ (e d : List (Nat × Role)) (k : Nat), (e.map Prod.fst).Nodup →
      k ∈ e.map Prod.fst →
      alookup (dict_update d e) k = alookup e k := by
  intro e
  induction e with
  | nil =>
    intro d k _ hk
    simp at hk
  | cons kv rest ih =>
    obtain ⟨k1, v1⟩ := kv
    intro d k hnd hk
    rw [List.map_cons, List.nodup_cons] at hnd
    rw [dict_update_cons]
    simp only [List.map_cons, List.mem_cons] at hk
    by_cases he : k = k1
    · subst he
      rw [alookup_dict_update_not_mem rest _ k hnd.1]
      rw [show ((k, v1) : Nat × Role).1 = k from rfl,
        show ((k, v1) : Nat × Role).2 = v1 from rfl]
      rw [alookup_aset_self, alookup, if_pos rfl]
    · rcases hk with hk | hk
      · exact absurd hk he
      · rw [ih _ k hnd.2 hk, alookup, if_neg (fun hh => he hh.symm)]

theorem map_alookup_keys :
    ∀ (d : List (Nat × Role)), (d.map Prod.fst).Nodup →
      (d.map Prod.fst).map (fun k => (alookup d k).getD Role.VILLAGER) =
        d.map Prod.snd := by
  intro d
  induction d with
  | nil => intro _; rfl
  | cons kv rest ih =>
    obtain ⟨k1, v1⟩ := kv
    intro hnd
    rw [List.map_cons, List.nodup_cons] at hnd
    rw [List.map_cons, List.map_cons, List.map_cons]
    dsimp only
    rw [alookup, if_pos rfl, Option.getD_some]
    have htail : (rest.map Prod.fst).map
        (fun k => (alookup ((k1, v1) :: rest) k).getD Role.VILLAGER) =
        (rest.map Prod.fst).map
        (fun k => (alookup rest k).getD Role.VILLAGER) := by
      apply List.map_congr_left
      intro k hk
      have hne : k1 ≠ k := by
        intro he
        exact hnd.1 (he ▸ hk)
      rw [alookup, if_neg hne]
    rw [htail, ih hnd.2]

theorem filter_pid_map :
    ∀ (ps : List Player) (fixed : List (Nat × Role)),
      (ps.filter (fun p => ¬ amem fixed p.player_id)).map Player.player_id =
        (ps.map Player.player_id).filter (fun k => !(amem fixed k)) := by
  intro ps fixed
  induction ps with
  | nil => rfl
  | cons p rest ih =>
    rw [List.map_cons, List.filter_cons, List.filter_cons]
    simp at ih
    cases h : amem fixed p.player_id with
    | false => simp [h, ih]
    | true => simp [h, ih]

theorem unknown_players_eq (state : GameState) (fixed : List (Nat × Role)) :
    unknown_players_of state fixed =
      (state.players.map Player.player_id).filter (fun k => !(amem fixed k)) := by
  unfold unknown_players_of
  exact filter_pid_map state.players fixed

theorem estimate_sims_worlds :
    ∀ (n : Nat) (state : GameState) (actor_id : Nat) (my_role : Role)
      (my_faction : Faction) (fixed : List (Nat × Role)) (pool : List Role)
      (unknown kg : List Nat) (r : Rng) (wins : Nat)
      (worlds : List (List (Nat × Role))) (rend : Rng),
      estimate_sims state actor_id my_role my_faction fixed pool unknown kg n r =
        some (wins, worlds, rend) →
      ∀ w ∈ worlds, ∃ ra rb : Rng,
        sample_world fixed pool unknown kg ra = some (w, rb) := by
  intro n
  induction n with
  | zero =>
    intro state actor_id my_role my_faction fixed pool unknown kg r wins worlds
      rend h w hw
    rw [estimate_sims] at h
    cases h
    simp at hw
  | succ m ih =>
    intro state actor_id my_role my_faction fixed pool unknown kg r wins worlds
      rend h w hw
    rw [estimate_sims] at h
    cases hsw : sample_world fixed pool unknown kg r with
    | none =>
      rw [hsw] at h
      cases h
    | some pr =>
      obtain ⟨world, r1⟩ := pr
      rw [hsw] at h
      dsimp only at h
      cases hfr : fast_run (estimate_build_state state actor_id my_role world) r1 with
      | mk winner r2 =>
        rw [hfr] at h
        dsimp only at h
        cases hrec : estimate_sims state actor_id my_role my_faction fixed pool
            unknown kg m r2 with
        | none =>
          rw [hrec] at h
          cases h
        | some out =>
          obtain ⟨wins2, worlds2, r3⟩ := out
          rw [hrec] at h
          dsimp only at h
          cases h
          rcases List.mem_cons.mp hw with hwe | hwm
          · subst hwe
            exact ⟨r, r1, hsw⟩
          · exact ih state actor_id my_role my_faction fixed pool unknown kg r2
              wins2 worlds2 rend hrec w hwm

theorem world_conservation (players : List Player) (fixed asg : List (Nat × Role))
    (hfk : (fixed.map Prod.fst).Nodup)
    (hsub : ∀ k ∈ fixed.map Prod.fst, k ∈ players.map Player.player_id)
    (hnd : (players.map Player.player_id).Nodup)
    (hka : List.Perm (asg.map Prod.fst)
      ((players.map Player.player_id).filter (fun k => !(amem fixed k)))) :
    List.Perm
      (players.map (fun p =>
        (alookup (dict_update fixed asg) p.player_id).getD Role.VILLAGER))
      (fixed.map Prod.snd ++ asg.map Prod.snd) := by
  have hasgnd : (asg.map Prod.fst).Nodup := hka.nodup_iff.mpr (hnd.filter _)
  have hmm : players.map (fun p =>
      (alookup (dict_update fixed asg) p.player_id).getD Role.VILLAGER) =
      (players.map Player.player_id).map
        (fun k => (alookup (dict_update fixed asg) k).getD Role.VILLAGER) := by
    rw [List.map_map]
    rfl
  have hfixperm : List.Perm
      ((players.map Player.player_id).filter (fun k => amem fixed k))
      (fixed.map Prod.fst) := by
    rw [List.perm_ext_iff_of_nodup (hnd.filter _) hfk]
    intro k
    simp only [List.mem_filter]
    constructor
    · rintro ⟨_, ham⟩
      exact (amem_iff_mem_keys fixed k).mp ham
    · intro hk
      exact ⟨hsub k hk, (amem_iff_mem_keys fixed k).mpr hk⟩
  have hfixmap : (fixed.map Prod.fst).map
      (fun k => (alookup (dict_update fixed asg) k).getD Role.VILLAGER) =
      fixed.map Prod.snd := by
    rw [← map_alookup_keys fixed hfk]
    apply List.map_congr_left
    intro k hk
    have hnot : k ∉ asg.map Prod.fst := by
      intro hmem
      have hin := hka.mem_iff.mp hmem
      rw [List.mem_filter] at hin
      have ham := (amem_iff_mem_keys fixed k).mpr hk
      rw [ham] at hin
      simp at hin
    rw [alookup_dict_update_not_mem asg fixed k hnot]
  have hunkmap : List.Perm
      (((players.map Player.player_id).filter (fun k => !(amem fixed k))).map
        (fun k => (alookup (dict_update fixed asg) k).getD Role.VILLAGER))
      (asg.map Prod.snd) := by
    have h1 := (hka.symm).map
      (fun k => (alookup (dict_update fixed asg) k).getD Role.VILLAGER)
    have h2 : (asg.map Prod.fst).map
        (fun k => (alookup (dict_update fixed asg) k).getD Role.VILLAGER) =
        asg.map Prod.snd := by
      rw [← map_alookup_keys asg hasgnd]
      apply List.map_congr_left
      intro k hk
      rw [alookup_dict_update_mem_keys asg fixed k hasgnd hk]
    rw [h2] at h1
    exact h1
  rw [hmm]
  have hsplit := (List.filter_append_perm (fun k => amem fixed k)
    (players.map Player.player_id)).symm.map
    (fun k => (alookup (dict_update fixed asg) k).getD Role.VILLAGER)
  rw [List.map_append] at hsplit
  refine hsplit.trans ?_
  have := List.Perm.append (hfixperm.map
    (fun k => (alookup (dict_update fixed asg) k).getD Role.VILLAGER)) hunkmap
  rw [hfixmap] at this
  exact this

theorem filter_amem_perm_keys (players : List Player) (fixed : List (Nat × Role))
    (hfk : (fixed.map Prod.fst).Nodup)
    (hsub : ∀ k ∈ fixed.map Prod.fst, k ∈ players.map Player.player_id)
    (hnd : (players.map Player.player_id).Nodup) :
    List.Perm ((players.map Player.player_id).filter (fun k => amem fixed k))
      (fixed.map Prod.fst) := by
  rw [List.perm_ext_iff_of_nodup (hnd.filter _) hfk]
  intro k
  simp only [List.mem_filter]
  constructor
  · rintro ⟨_, ham⟩
    exact (amem_iff_mem_keys fixed k).mp ham
  · intro hk
    exact ⟨hsub k hk, (amem_iff_mem_keys fixed k).mpr hk⟩

/-- C2: Role-count conservation in sampling, as far as it actually holds:
when the configured role counts match the players' true roles, player ids
are distinct, the `fixed_roles` keys are all real player ids, and every
fixed role is still present in the pool at its removal (`removals_clean`
- the source's silent `elif ... pass` fallthrough never fires), every
world sampled inside `WinRateEstimator.estimate` carries exactly the
configured multiset of roles across the players.  The `removals_clean`
hypothesis is essential: the counterexample shows a reachable state (a
seer with three good checks) whose sampled world breaks conservation. -/
theorem claim2_role_count_conservation (num_simulations : Nat)
    (state : GameState) (actor_id : Nat) (r : Rng) (my_player : Player)
    (hfind : state.players.find? (fun p => p.player_id = actor_id) =
      some my_player)
    (hconf : config_role_multiset state.config =
      ((state.players.map Player.role : List Role) : Multiset Role))
    (hnd : (state.players.map Player.player_id).Nodup)
    (hsub : ∀ k ∈ (fixed_roles_of state actor_id my_player.role).map Prod.fst,
      k ∈ state.players.map Player.player_id)
    (hclean : removals_clean (state.players.map Player.role)
      (fixed_roles_of state actor_id my_player.role) = true) :
    ∀ w ∈ estimate_worlds num_simulations state actor_id r,
      world_role_multiset w state.players = config_role_multiset state.config := by
  intro w hw
  unfold estimate_worlds at hw
  rw [hfind] at hw
  dsimp only at hw
  cases hes : estimate_sims state actor_id my_player.role
      (if my_player.role = Role.WOLF then Faction.WOLF else Faction.VILLAGE)
      (fixed_roles_of state actor_id my_player.role)
      (residual_pool state (fixed_roles_of state actor_id my_player.role))
      (unknown_players_of state (fixed_roles_of state actor_id my_player.role))
      (known_good_ids_of state actor_id my_player.role) num_simulations r with
  | none =>
    rw [hes] at hw
    simp at hw
  | some out =>
    obtain ⟨wins, worlds, rend⟩ := out
    rw [hes] at hw
    dsimp only at hw
    obtain ⟨ra, rb, hsw⟩ := estimate_sims_worlds num_simulations state actor_id
      my_player.role _ _ _ _ _ r wins worlds rend hes w hw
    have hfk : ((fixed_roles_of state actor_id my_player.role).map Prod.fst).Nodup :=
      fixed_roles_keys_nodup state actor_id _
    have hfixperm := filter_amem_perm_keys state.players
      (fixed_roles_of state actor_id my_player.role) hfk hsub hnd
    have hudef := unknown_players_eq state
      (fixed_roles_of state actor_id my_player.role)
    have hulen : (unknown_players_of state
          (fixed_roles_of state actor_id my_player.role)).length +
        (fixed_roles_of state actor_id my_player.role).length =
        state.players.length := by
      have h1 := (List.filter_append_perm
        (fun k => amem (fixed_roles_of state actor_id my_player.role) k)
        (state.players.map Player.player_id)).length_eq
      rw [List.length_append] at h1
      have h2 := hfixperm.length_eq
      rw [List.length_map] at h2
      rw [hudef]
      simp only [List.length_map] at h1 ⊢
      omega
    have hplen : (residual_pool state
          (fixed_roles_of state actor_id my_player.role)).length =
        (unknown_players_of state
          (fixed_roles_of state actor_id my_player.role)).length := by
      have h3 := residual_fold_length (fixed_roles_of state actor_id my_player.role)
        (state.players.map Player.role) hclean
      have h4 : (residual_pool state
            (fixed_roles_of state actor_id my_player.role)).length +
          (fixed_roles_of state actor_id my_player.role).length =
          (state.players.map Player.role).length := h3
      rw [List.length_map] at h4
      omega
    have hund : (unknown_players_of state
        (fixed_roles_of state actor_id my_player.role)).Nodup := by
      rw [hudef]
      exact hnd.filter _
    obtain ⟨asg, hdw, hkperm, hvperm⟩ := sample_world_spec
      (fixed_roles_of state actor_id my_player.role)
      (residual_pool state (fixed_roles_of state actor_id my_player.role))
      (unknown_players_of state (fixed_roles_of state actor_id my_player.role))
      (known_good_ids_of state actor_id my_player.role) ra w rb hsw hplen hund
    have hka : List.Perm (asg.map Prod.fst)
        ((state.players.map Player.player_id).filter
          (fun k => !(amem (fixed_roles_of state actor_id my_player.role) k))) := by
      rw [← hudef]
      exact hkperm
    have hcons := world_conservation state.players
      (fixed_roles_of state actor_id my_player.role) asg hfk hsub hnd hka
    rw [← hdw] at hcons
    have hres := residual_fold_perm (fixed_roles_of state actor_id my_player.role)
      (state.players.map Player.role) hclean
    have hchain : List.Perm
        (state.players.map (fun p => (alookup w p.player_id).getD Role.VILLAGER))
        (state.players.map Player.role) := by
      refine hcons.trans ?_
      refine (List.Perm.append
        (List.Perm.refl ((fixed_roles_of state actor_id my_player.role).map
          Prod.snd)) hvperm).trans ?_
      refine List.perm_append_comm.trans ?_
      exact hres
    unfold world_role_multiset
    rw [hconf]
    exact Multiset.coe_eq_coe.mpr hchain

/-- A 6-player state in which the seer (player 0) has checked players 1,
2 and 3 and found them all good; player 3 is in truth the witch.  The
"Simplified Good" rule then pins 3 as `VILLAGER` in `fixed_roles`, and
the pool construction silently skips the third `VILLAGER` removal. -/
def seerPlayers : List Player :=
  [{player_id := 0, role := Role.SEER}, {player_id := 1, role := Role.VILLAGER},
   {player_id := 2, role := Role.VILLAGER}, {player_id := 3, role := Role.WITCH},
   {player_id := 4, role := Role.WOLF}, {player_id := 5, role := Role.WOLF}]

def seerPriv : PlayerPrivate := { seer_results := [(1, false), (2, false), (3, false)] }

def seerConfig : GameConfig :=
  { player_count := 6,
    roles := [(Role.WOLF, 2), (Role.VILLAGER, 2), (Role.SEER, 1), (Role.WITCH, 1)] }

def seerState : GameState :=
  { players := seerPlayers, day := 4, phase := Phase.NIGHT_WOLF,
    config := seerConfig, private_info := [(0, seerPriv)] }

/-- C2 counterexample: role-count conservation fails on a reachable
state.  With the seer having checked three players good, `fixed_roles`
holds four `VILLAGER`-labelled entries while the config grants only two
villagers; the pool construction's silent `elif ... pass` drops the
excess removal, and the world sampled by `estimate` contains three
`VILLAGER`s and one `WOLF` against the configured two and two. -/
theorem claim2_counterexample :
    (estimate_worlds 1 seerState 0 zeroRng).all
      (fun w => world_role_multiset w seerState.players =
        config_role_multiset seerState.config) = false := by
  decide

def plainPlayers : List Player :=
  [{player_id := 0, role := Role.WOLF}, {player_id := 1, role := Role.VILLAGER},
   {player_id := 2, role := Role.SEER}]

def plainConfig : GameConfig :=
  { player_count := 3,
    roles := [(Role.WOLF, 1), (Role.VILLAGER, 1), (Role.SEER, 1)] }

def plainState : GameState :=
  { players := plainPlayers, day := 1, phase := Phase.NIGHT_WOLF,
    config := plainConfig }

def plainObserver : Player := { player_id := 1, role := Role.VILLAGER }

theorem claim2_witness :
    plainState.players.find? (fun p => p.player_id = 1) = some plainObserver ∧
    config_role_multiset plainState.config =
      ((plainState.players.map Player.role : List Role) : Multiset Role) ∧
    (plainState.players.map Player.player_id).Nodup ∧
    (∀ k ∈ (fixed_roles_of plainState 1 plainObserver.role).map Prod.fst,
      k ∈ plainState.players.map Player.player_id) ∧
    removals_clean (plainState.players.map Player.role)
      (fixed_roles_of plainState 1 plainObserver.role) = true ∧
    (estimate_worlds 1 plainState 1 zeroRng).headD [] ∈
      estimate_worlds 1 plainState 1 zeroRng ∧
    world_role_multiset ((estimate_worlds 1 plainState 1 zeroRng).headD [])
      plainState.players = config_role_multiset plainState.config :=
  ⟨by decide, by decide, by decide, by decide, by decide, by decide,
    claim2_role_count_conservation 1 plainState 1 zeroRng plainObserver
      (by decide) (by decide) (by decide) (by decide) (by decide)
      ((estimate_worlds 1 plainState 1 zeroRng).headD []) (by decide)⟩

end Werewolf
